import Mathlib

/-!
Verification of the JavaPlusPlus extended-Java parser front end
(`javapp/parser.py`, class `JavaPlusPlusParser`).

The development shallowly embeds the parts of the parser that the verified
properties talk about: the per-instance feature-flag system, the
auto-injection and sorting of the injected block of the compilation unit's
imported-declarations section, and the token-level desugaring productions
(print statements, collection literals, optional literals, trailing commas,
feature directives).  Python strings are embedded as Lean `String`s, the
token stream as a `List Tok`, and Python exceptions as an `Except` error
channel.  Functions of the base `JavaParser` class (an external collaborator
that is out of the verified core) are modelled from the specification and
marked as such in their doc comments.
-/

/-- Python exceptions raised by the parser: `ValueError` (raised by
`enable_feature` for unknown names) and `JavaSyntaxError` (position-tagged;
the position is encoded as the number of tokens remaining in the stream at
the offending token, which maps injectively to source positions).
Message texts keep the wording of the source minus the quote characters.
`outOfFuel` is an artifact of the fuelled embedding of the source's loops;
it is never produced when enough fuel is supplied. -/
inductive PErr where
  | valueError (msg : String)
  | javaSyntaxError (msg : String) (atPos : Nat)
  | outOfFuel
  deriving DecidableEq, Repr

/-- Python `str.endswith`, embedded via the character list of the string. -/
def strEndsWith (s suffix : String) : Bool :=
  suffix.data.isSuffixOf s.data

/-- Python `str.startswith`, embedded via the character list of the string. -/
def strStartsWith (s pre : String) : Bool :=
  pre.data.isPrefixOf s.data

/-- Python `s[0:-n]`: drop the last `n` characters. -/
def strDropRight (s : String) (n : Nat) : String :=
  ⟨s.data.take (s.data.length - n)⟩

/-- The per-instance feature flags.  The Python parser stores each flag as a
dynamically named instance attribute; the embedding is the map from
attribute name to flag value. -/
def FeatureSet : Type := String → Bool

/-- Python `setattr(self, attr, value)` on the flag attributes. -/
def set_attr (fs : FeatureSet) (attr : String) (value : Bool) : FeatureSet :=
  fun a => if a = attr then value else fs a

/-- `JavaPlusPlusParser.supported_features` (source order). -/
def supported_features : List String :=
  ["statements.print", "expressions.class_creator", "literals.collections",
   "trailing_commas.argument", "trailing_commas.other",
   "syntax.argument_annotations", "auto_imports.types", "auto_imports.statics",
   "syntax.multiple_import_sections", "literals.optional"]

/-- Python `str.split(sep)` for a single-character separator, embedded over
the character list (kernel-reducible, unlike `String.splitOn`). -/
def splitOnChar (c : Char) : List Char → List (List Char)
  | [] => [[]]
  | x :: xs =>
    let r := splitOnChar c xs
    if x = c then [] :: r
    else
      match r with
      | [] => [[x]]
      | y :: ys => (x :: y) :: ys

/-- The dot-separated components of a string, as strings. -/
def dotComponents (s : String) : List String :=
  (splitOnChar '.' s.data).map (fun l => (⟨l⟩ : String))

/-- `JavaPlusPlusParser.feature_name_to_attr`: split the dotted name, reverse
the components, join with underscores. -/
def feature_name_to_attr (name : String) : String :=
  String.intercalate "_" (dotComponents name).reverse

/-- `JavaPlusPlusParser.enable_feature(feature, enabled)`.  The Python method
mutates `self` and raises `ValueError` on unknown names; the embedding
returns the updated flag map or the error.  (In the error cases the Python
method has performed no `setattr`, so discarding the state is faithful.) -/
def enable_feature (self : FeatureSet) (feature : String) (enabled : Bool) :
    Except PErr FeatureSet :=
  if feature = "*" then
    .ok (supported_features.foldl
      (fun s f => set_attr s (feature_name_to_attr f) enabled) self)
  else if supported_features.contains feature then
    .ok (set_attr self (feature_name_to_attr feature) enabled)
  else if strEndsWith feature ".*" then
    let pre := strDropRight feature 2
    let self' := supported_features.foldl
      (fun s f => if strStartsWith f pre then
          set_attr s (feature_name_to_attr f) enabled else s) self
    if supported_features.any (fun f => strStartsWith f pre) then
      .ok self'
    else
      .error (.valueError ("unsupported category " ++ pre))
  else
    .error (.valueError ("unsupported feature " ++ feature))

/-- The flag assignments performed by `JavaPlusPlusParser.__init__`, in
source order.  Attributes never assigned are absent on the Python object;
the embedding maps them to `false`. -/
def JavaPlusPlusParser_init : FeatureSet :=
  set_attr (set_attr (set_attr (set_attr (set_attr (set_attr (set_attr
    (set_attr (set_attr (set_attr (fun _ => false)
      "print_statements" true)
      "collections_literals" true)
      "class_creator_expressions" true)
      "argument_trailing_commas" true)
      "other_trailing_commas" false)
      "argument_annotations_syntax" true)
      "types_auto_imports" true)
      "statics_auto_imports" true)
      "multiple_import_sections_syntax" true)
      "optional_literals" true

example : JavaPlusPlusParser_init "print_statements" = true := by decide
example : JavaPlusPlusParser_init "other_trailing_commas" = false := by decide
example : feature_name_to_attr "trailing_commas.other" = "other_trailing_commas" := by decide
example :
    (enable_feature JavaPlusPlusParser_init "s.*" true).isOk = true := by decide
example :
    ((enable_feature (fun _ => false) "literals.*" true).toOption.map
      (fun fs => fs "optional_literals")) = some true := by decide

/-! ## Feature-flag lemmas -/

theorem set_attr_same (s : FeatureSet) (a : String) (v : Bool) :
    set_attr s a v a = v := by
  simp [set_attr]

theorem set_attr_other (s : FeatureSet) (a b : String) (v : Bool) (h : b ≠ a) :
    set_attr s a v b = s b := by
  simp [set_attr, h]

/-- Distinct registered feature names occupy distinct attribute slots. -/
theorem attr_pairwise :
    supported_features.Pairwise
      (fun a b => feature_name_to_attr a ≠ feature_name_to_attr b) := by
  decide

theorem foldl_cond_set_attr_not_mem (cond : String → Bool) (v : Bool) :
    ∀ (l : List String) (s : FeatureSet) (a : String),
      (∀ f ∈ l, feature_name_to_attr f ≠ a) →
      l.foldl (fun s f =>
        if cond f then set_attr s (feature_name_to_attr f) v else s) s a = s a
  | [], _, _, _ => rfl
  | g :: t, s, a, h => by
    simp only [List.foldl_cons]
    rw [foldl_cond_set_attr_not_mem cond v t _ a
      (fun f hf => h f (List.mem_cons_of_mem _ hf))]
    by_cases hc : cond g
    · simp only [hc, if_true]
      exact set_attr_other _ _ _ _ (fun e => h g (List.mem_cons_self _ _) e.symm)
    · simp [hc]

theorem foldl_cond_set_attr_eval (cond : String → Bool) (v : Bool) :
    ∀ (l : List String) (s : FeatureSet) (f : String), f ∈ l →
      l.Pairwise (fun a b => feature_name_to_attr a ≠ feature_name_to_attr b) →
      l.foldl (fun s g =>
          if cond g then set_attr s (feature_name_to_attr g) v else s) s
        (feature_name_to_attr f) =
      if cond f then v else s (feature_name_to_attr f)
  | [], _, _, hf, _ => absurd hf (List.not_mem_nil _)
  | g :: t, s, f, hf, hp => by
    simp only [List.foldl_cons]
    rcases List.mem_cons.mp hf with rfl | hft
    · rw [foldl_cond_set_attr_not_mem cond v t _ _
        (fun x hx e => (List.rel_of_pairwise_cons hp hx) e.symm)]
      by_cases hc : cond f
      · simp [hc, set_attr_same]
      · simp [hc]
    · rw [foldl_cond_set_attr_eval cond v t _ f hft hp.of_cons]
      by_cases hcf : cond f <;> simp only [hcf, if_true, if_false]
      all_goals {
        by_cases hc : cond g
        · simp only [hc, if_true]
          rw [set_attr_other _ _ _ _
            (fun e => (List.rel_of_pairwise_cons hp hft) e.symm)]
        · simp [hc] }

/-- C3 counterexample: no registered feature name starts with `"s."`, so the
claim demands an unknown-category error for `enable_feature("s.*", on)`; the
code instead succeeds, and flips the flag of `statements.print` — a feature
whose dotted name does not start with `"s."`. -/
theorem enable_feature_namespace_counterexample :
    (supported_features.all (fun f => !strStartsWith f "s.")) = true ∧
    ((enable_feature (fun _ => false) "s.*" true).toOption.map
        (fun fs => fs "print_statements")) = some true := by
  decide

theorem mk_data_eq (s : String) : (⟨s.data⟩ : String) = s := rfl

/-- C3 (amended): `enable_feature("ns.*", on)` sets exactly those registered
features whose dotted name starts with the *string* `ns` (not necessarily
followed by a dot), leaves every other registered feature's flag unchanged,
and raises the unknown-category error naming `ns` only when no registered
feature name starts with `ns`. -/
theorem enable_feature_namespace_amended (fs : FeatureSet) (ns : String) (v : Bool) :
    ((∃ f ∈ supported_features, strStartsWith f ns = true) →
      ∃ fs', enable_feature fs (ns ++ ".*") v = .ok fs' ∧
        ∀ f ∈ supported_features,
          fs' (feature_name_to_attr f) =
            if strStartsWith f ns then v else fs (feature_name_to_attr f)) ∧
    ((∀ f ∈ supported_features, strStartsWith f ns = false) →
      enable_feature fs (ns ++ ".*") v =
        .error (.valueError ("unsupported category " ++ ns))) := by
  have hdotstar : (".*" : String).data = ['.', '*'] := rfl
  have hstar : ns ++ ".*" ≠ "*" := by
    intro h
    have hlen := congrArg (fun s => s.data.length) h
    simp only [String.data_append, hdotstar, List.length_append] at hlen
    simp at hlen
  have hlast : (ns ++ ".*").data.getLast? = some '*' := by
    rw [String.data_append, hdotstar,
      show ns.data ++ ['.', '*'] = (ns.data ++ ['.']) ++ ['*'] by simp]
    exact List.getLast?_concat _
  have hcont : supported_features.contains (ns ++ ".*") = false := by
    rw [Bool.eq_false_iff]
    intro hc
    have hm : (ns ++ ".*") ∈ supported_features := List.elem_iff.mp hc
    simp only [supported_features, List.mem_cons, List.not_mem_nil, or_false] at hm
    rcases hm with h|h|h|h|h|h|h|h|h|h <;>
      (rw [h] at hlast; exact absurd hlast (by decide))
  have hends : strEndsWith (ns ++ ".*") ".*" = true := by
    simp only [strEndsWith, String.data_append, hdotstar]
    rw [show (List.isSuffixOf ['.', '*'] (ns.data ++ ['.', '*']) = true) ↔
        (['.', '*'] <:+ ns.data ++ ['.', '*']) from List.isSuffixOf_iff_suffix]
    exact List.suffix_append _ _
  have hdrop : strDropRight (ns ++ ".*") 2 = ns := by
    unfold strDropRight
    rw [String.data_append, hdotstar]
    have hl : (ns.data ++ ['.', '*']).length - 2 = ns.data.length := by simp
    rw [hl, List.take_left, mk_data_eq]
  have hmain : enable_feature fs (ns ++ ".*") v =
      (if supported_features.any (fun f => strStartsWith f ns) then
        .ok (supported_features.foldl (fun s f =>
          if strStartsWith f ns then
            set_attr s (feature_name_to_attr f) v else s) fs)
      else .error (.valueError ("unsupported category " ++ ns))) := by
    rw [enable_feature, if_neg hstar]
    rw [hcont]
    simp only [Bool.false_eq_true, if_false]
    rw [hends]
    simp only [if_true, hdrop]
  constructor
  · rintro ⟨f, hf, hsw⟩
    have hany : supported_features.any (fun f => strStartsWith f ns) = true :=
      List.any_eq_true.mpr ⟨f, hf, hsw⟩
    refine ⟨_, by rw [hmain, if_pos hany], ?_⟩
    intro g hg
    exact foldl_cond_set_attr_eval _ _ supported_features fs g hg attr_pairwise
  · intro hall
    have hany : ¬ (supported_features.any (fun f => strStartsWith f ns) = true) := by
      rw [List.any_eq_true]
      rintro ⟨f, hf, hsw⟩
      rw [hall f hf] at hsw
      exact Bool.false_ne_true hsw
    rw [hmain, if_neg hany]

/-- Witness for the amended C3 theorem: disabling the `literals` namespace
from the default feature set. -/
theorem enable_feature_namespace_amended_witness :
    ∃ fs', enable_feature JavaPlusPlusParser_init ("literals" ++ ".*") false = .ok fs' ∧
      ∀ f ∈ supported_features,
        fs' (feature_name_to_attr f) =
          if strStartsWith f "literals" then false
          else JavaPlusPlusParser_init (feature_name_to_attr f) :=
  (enable_feature_namespace_amended JavaPlusPlusParser_init "literals" false).1
    ⟨"literals.collections", by decide, by decide⟩

/-- C4 counterexample: it is not the case that every registered feature's
flag is `true` right after `__init__`: the flag of `trailing_commas.other`
(attribute `other_trailing_commas`) is initialized to `false`. -/
theorem default_features_counterexample :
    ¬ (∀ f ∈ supported_features,
        JavaPlusPlusParser_init (feature_name_to_attr f) = true) := by
  decide

/-- C4 (amended): immediately after `__init__`, every registered feature's
flag is `true` except `trailing_commas.other`, whose flag is `false`. -/
theorem default_features_amended (f : String) (hf : f ∈ supported_features) :
    JavaPlusPlusParser_init (feature_name_to_attr f) =
      (f != "trailing_commas.other") := by
  fin_cases hf <;> decide

/-- Witness for the amended C4 theorem. -/
theorem default_features_amended_witness :
    JavaPlusPlusParser_init (feature_name_to_attr "statements.print") = true ∧
    JavaPlusPlusParser_init (feature_name_to_attr "trailing_commas.other") = false := by
  constructor
  · simpa using default_features_amended "statements.print" (by decide)
  · simpa using default_features_amended "trailing_commas.other" (by decide)

/-! ## Import records and the auto-injection passes -/

/-- `tree.Import` record: dotted qualified name (the string of `tree.Name`),
static flag, wildcard flag. -/
structure Import where
  name : String
  static : Bool := false
  wildcard : Bool := false
  deriving DecidableEq, Repr

/-- Last dot-separated component of a qualified name. -/
def lastComponent (s : String) : Option String :=
  (dotComponents s).getLast?

/-- A qualified name with its last dot-separated component removed. -/
def dropLastComponent (s : String) : String :=
  String.intercalate "." (dotComponents s).dropLast

/-- Modelled from the spec: the accessor `Import.imported_package` of the
external `java.tree` node library (the library is not part of the verified
core).  Per §3/§4.2 an import record is (qualified name, static, wildcard);
for a non-static wildcard record the whole name is the package, otherwise
the package is the name minus the type (and member) components. -/
def Import.imported_package (i : Import) : String :=
  if i.static then
    if i.wildcard then dropLastComponent i.name
    else dropLastComponent (dropLastComponent i.name)
  else
    if i.wildcard then i.name
    else dropLastComponent i.name

/-- Modelled from the spec: the accessor `Import.imported_type` of the
external `java.tree` node library.  A non-static wildcard import names no
single type; otherwise the type is the last (for static records,
second-to-last) component. -/
def Import.imported_type (i : Import) : Option String :=
  if i.static then
    if i.wildcard then lastComponent i.name
    else lastComponent (dropLastComponent i.name)
  else
    if i.wildcard then none
    else lastComponent i.name

/-- Modelled from the spec: the accessor `Import.imported_name` of the
external `java.tree` node library — the last component (the member, for a
specific static import); a wildcard record names no single member. -/
def Import.imported_name (i : Import) : Option String :=
  if i.wildcard then none else lastComponent i.name

/-- A value of the `auto_imports` table: a set of type names, or the
wildcard marker `'*'`. -/
inductive TypeEntry where
  | star
  | types (ts : List String)
  deriving DecidableEq, Repr

/-- A value of the `static_imports` inner table: a set of member names, or
the wildcard marker `'*'`. -/
inductive MemberEntry where
  | star
  | members (ms : List String)
  deriving DecidableEq, Repr

/-- The scan of `parse_import_section` lines 135–143 over the existing
records for a configured `pkg.ty`: 2 = covered by a non-static wildcard
record of `pkg`; 1 = some non-static record's simple type name equals `ty`;
0 = no match.  The first matching record decides. -/
def find_type_status (pkg ty : String) : List Import → Nat
  | [] => 0
  | i :: rest =>
    if !i.static then
      if i.imported_package = pkg && i.wildcard then 2
      else if i.imported_type = some ty then 1
      else find_type_status pkg ty rest
    else find_type_status pkg ty rest

/-- Lines 125–129: is some record a non-static wildcard import of `pkg`? -/
def find_pkg_wildcard (pkg : String) : List Import → Bool
  | [] => false
  | i :: rest =>
    (!i.static && i.imported_package = pkg && i.wildcard) ||
      find_pkg_wildcard pkg rest

/-- Lines 133–149: the loop over a package's configured type names.  A
status of 2 leaves the loop (the package is wildcard-covered); a status of 1
skips the one type; otherwise a record for `pkg.ty` is prepended and the
injected-block counter is incremented. -/
def inject_types_for (pkg : String) :
    List String → List Import → Nat → List Import × Nat
  | [], imps, k => (imps, k)
  | t :: ts, imps, k =>
    let f := find_type_status pkg t imps
    if f = 2 then (imps, k)
    else if f = 1 then inject_types_for pkg ts imps k
    else inject_types_for pkg ts ({ name := pkg ++ "." ++ t } :: imps) (k + 1)

/-- Lines 122–149: the type-level auto-injection pass over the table. -/
def inject_types :
    List (String × TypeEntry) → List Import → Nat → List Import × Nat
  | [], imps, k => (imps, k)
  | (pkg, .star) :: rest, imps, k =>
    if find_pkg_wildcard pkg imps then inject_types rest imps k
    else inject_types rest ({ name := pkg, wildcard := true } :: imps) (k + 1)
  | (pkg, .types ts) :: rest, imps, k =>
    let r := inject_types_for pkg ts imps k
    inject_types rest r.1 r.2

/-- Line 157: is some record a static wildcard import of `pkg.ty`? -/
def find_static_wildcard (pkg ty : String) : List Import → Bool
  | [] => false
  | i :: rest =>
    (i.static && i.wildcard && i.imported_package = pkg &&
      i.imported_type = some ty) ||
      find_static_wildcard pkg ty rest

/-- Lines 164–173: the scan over the existing records for a configured
static member `pkg.ty.m`: 2 = covered by a static wildcard record of
`pkg.ty`; 1 = some static record's member name equals `m`; 0 = no match. -/
def find_member_status (pkg ty m : String) : List Import → Nat
  | [] => 0
  | i :: rest =>
    if i.static then
      if i.imported_package = pkg && i.imported_type = some ty && i.wildcard
        then 2
      else if i.imported_name = some m then 1
      else find_member_status pkg ty m rest
    else find_member_status pkg ty m rest

/-- Lines 163–179: the loop over a type's configured static member names. -/
def inject_members_for (pkg ty : String) :
    List String → List Import → Nat → List Import × Nat
  | [], imps, k => (imps, k)
  | m :: ms, imps, k =>
    let f := find_member_status pkg ty m imps
    if f = 2 then (imps, k)
    else if f = 1 then inject_members_for pkg ty ms imps k
    else inject_members_for pkg ty ms
      ({ name := pkg ++ "." ++ ty ++ "." ++ m, static := true } :: imps)
      (k + 1)

/-- Lines 152–179: the loop over a package's configured types. -/
def inject_statics_for (pkg : String) :
    List (String × MemberEntry) → List Import → Nat → List Import × Nat
  | [], imps, k => (imps, k)
  | (ty, .star) :: rest, imps, k =>
    if find_static_wildcard pkg ty imps then inject_statics_for pkg rest imps k
    else inject_statics_for pkg rest
      ({ name := pkg ++ "." ++ ty, static := true, wildcard := true } :: imps)
      (k + 1)
  | (ty, .members ms) :: rest, imps, k =>
    let r := inject_members_for pkg ty ms imps k
    inject_statics_for pkg rest r.1 r.2

/-- Lines 151–179: the static-member auto-injection pass over the table. -/
def inject_statics :
    List (String × List (String × MemberEntry)) → List Import → Nat →
      List Import × Nat
  | [], imps, k => (imps, k)
  | (pkg, tys) :: rest, imps, k =>
    let r := inject_statics_for pkg tys imps k
    inject_statics rest r.1 r.2

/-- `JavaPlusPlusParser.auto_imports`.  The outer dict iterates in source
order; the inner values are Python `set`s whose iteration order is
unspecified — they are transcribed here in source text order, and the
order-independence of the final result is what theorem `C1` is about. -/
def auto_imports : List (String × TypeEntry) :=
  [("java.util", .types
     ["List", "Set", "Map", "ArrayList", "HashSet", "HashMap",
      "EnumSet", "Collection", "Iterator", "Collections", "Arrays",
      "Calendar", "Date", "EnumMap", "GregorianCalendar", "Locale",
      "Objects", "Optional", "OptionalDouble", "OptionalInt", "OptionalLong",
      "Properties", "Random", "Scanner", "Spliterators", "Spliterator",
      "Timer", "SimpleTimeZone", "TimeZone", "UUID",
      "ConcurrentModificationException", "NoSuchElementException"]),
   ("java.util.stream", .types
     ["Collector", "DoubleStream", "IntStream", "LongStream", "Stream",
      "Collectors", "StreamSupport"]),
   ("java.io", .types
     ["Closeable", "Serializable", "BufferedInputStream",
      "BufferedOutputStream", "BufferedReader", "BufferedWriter",
      "ByteArrayInputStream", "ByteArrayOutputStream", "CharArrayReader",
      "CharArrayWriter", "Console", "File", "FileInputStream",
      "FileOutputStream", "FileReader", "FileWriter", "InputStream",
      "InputStreamReader", "OutputStream", "OutputStreamWriter",
      "PrintStream", "PrintWriter", "Reader", "Writer", "StringReader",
      "StringWriter", "FileNotFoundException", "IOException", "IOError"]),
   ("java.nio.file", .types
     ["Path", "Files", "Paths", "StandardCopyOption", "StandardOpenOption"]),
   ("java.math", .types
     ["BigDecimal", "BigInteger", "MathContext", "RoundingMode"]),
   ("java.nio.charset", .types ["StandardCharsets"]),
   ("java.util.concurrent", .types ["Callable", "Executors", "TimeUnit"]),
   ("java.util.function", .star),
   ("java.util.regex", .types ["Pattern"])]

/-- `JavaPlusPlusParser.static_imports`, transcribed like `auto_imports`. -/
def static_imports : List (String × List (String × MemberEntry)) :=
  [("java.lang",
    [("Boolean", .members ["parseBoolean"]),
     ("Byte", .members ["parseByte"]),
     ("Double", .members ["parseDouble"]),
     ("Float", .members ["parseFloat"]),
     ("Integer", .members ["parseInt", "parseUnsignedInt"]),
     ("Long", .members ["parseLong", "parseUnsignedLong"]),
     ("Short", .members ["parseShort"]),
     ("String", .members ["format", "join"])])]

/-- The comparator `import_cmp` of `parse_import_section` (lines 183–199):
static before non-static, wildcard before specific, then by the qualified
name string. -/
def import_cmp (i1 i2 : Import) : Int :=
  if i1.static && !i2.static then -1
  else if !i1.static && i2.static then 1
  else if i1.wildcard && !i2.wildcard then -1
  else if !i1.wildcard && i2.wildcard then 1
  else if i1.name = i2.name then 0
  else if i1.name < i2.name then -1
  else 1

/-- The order the comparator induces (`cmp_to_key` sorts ascending by it). -/
def import_le (i1 i2 : Import) : Prop := import_cmp i1 i2 ≤ 0

instance : DecidableRel import_le :=
  fun _ _ => inferInstanceAs (Decidable (_ ≤ _))

/-- Line 201: replace the first `k` records (the injected block) by their
sorted permutation, leaving the records from position `k` on untouched.
Python's `sorted` is a stable sort by the comparator; `insertionSort` is
stable as well, and by `C1` the relation admits a unique sorted
permutation, so the embedding is exact. -/
def sortSlice (k : Nat) (imps : List Import) : List Import :=
  (imps.take k).insertionSort import_le ++ imps.drop k

/-- Lines 120–203 of `parse_import_section` after the explicit records have
been parsed: run the enabled auto-injection passes, then sort the injected
block. -/
def auto_inject (fs : FeatureSet) (imps : List Import) : List Import :=
  let r1 :=
    if fs "types_auto_imports" then inject_types auto_imports imps 0
    else (imps, 0)
  let r2 :=
    if fs "statics_auto_imports" then inject_statics static_imports r1.1 r1.2
    else r1
  if r2.2 ≠ 0 then sortSlice r2.2 r2.1 else r2.1

/-! ## The comparator is a linear order -/

/-- Priority rank encoded by the first four comparator branches:
static wildcard < static specific < non-static wildcard < non-static
specific. -/
def import_rank (i : Import) : Nat :=
  (if i.static then 0 else 2) + (if i.wildcard then 0 else 1)

theorem import_le_iff_rank (a b : Import) :
    import_le a b ↔
      (import_rank a < import_rank b ∨
        (import_rank a = import_rank b ∧ a.name ≤ b.name)) := by
  rcases a with ⟨na, sa, wa⟩
  rcases b with ⟨nb, sb, wb⟩
  unfold import_le import_cmp import_rank
  cases sa <;> cases sb <;> cases wa <;> cases wb <;>
    simp_all [le_iff_lt_or_eq] <;> split_ifs <;> simp_all [le_iff_lt_or_eq]

theorem import_rank_inj {a b : Import} (h : import_rank a = import_rank b) :
    a.static = b.static ∧ a.wildcard = b.wildcard := by
  rcases a with ⟨_, sa, wa⟩; rcases b with ⟨_, sb, wb⟩
  cases sa <;> cases sb <;> cases wa <;> cases wb <;> simp_all [import_rank]

instance : IsTotal Import import_le := ⟨fun a b => by
  rw [import_le_iff_rank, import_le_iff_rank]
  rcases lt_trichotomy (import_rank a) (import_rank b) with h | h | h
  · exact .inl (.inl h)
  · rcases le_total a.name b.name with hn | hn
    · exact .inl (.inr ⟨h, hn⟩)
    · exact .inr (.inr ⟨h.symm, hn⟩)
  · exact .inr (.inl h)⟩

instance : IsTrans Import import_le := ⟨fun a b c hab hbc => by
  rw [import_le_iff_rank] at *
  rcases hab with h1 | ⟨h1, h1'⟩ <;> rcases hbc with h2 | ⟨h2, h2'⟩
  · exact .inl (h1.trans h2)
  · exact .inl (h2 ▸ h1)
  · exact .inl (h1 ▸ h2)
  · exact .inr ⟨h1.trans h2, h1'.trans h2'⟩⟩

instance : IsAntisymm Import import_le := ⟨fun a b hab hba => by
  rw [import_le_iff_rank] at hab hba
  have hr : import_rank a = import_rank b := by
    rcases hab with h1 | ⟨h1, _⟩ <;> rcases hba with h2 | ⟨h2, _⟩ <;> omega
  obtain ⟨hs, hw⟩ := import_rank_inj hr
  have hn : a.name = b.name := by
    rcases hab with h1 | ⟨_, h1'⟩
    · omega
    · rcases hba with h2 | ⟨_, h2'⟩
      · omega
      · exact le_antisymm h1' h2'
  cases a; cases b; simp_all⟩

/-- The total order exactly as the claim words it: static records sort
before non-static; within equal static-ness, wildcard before specific;
within equal static-ness and wildcard-ness, lexicographically by the fully
qualified name string. -/
def claim_import_order (a b : Import) : Prop :=
  (a.static = true ∧ b.static = false) ∨
  (a.static = b.static ∧ a.wildcard = true ∧ b.wildcard = false) ∨
  (a.static = b.static ∧ a.wildcard = b.wildcard ∧ a.name ≤ b.name)

theorem import_le_iff_claim (a b : Import) :
    import_le a b ↔ claim_import_order a b := by
  rcases a with ⟨na, sa, wa⟩; rcases b with ⟨nb, sb, wb⟩
  rw [import_le_iff_rank]
  unfold claim_import_order import_rank
  cases sa <;> cases sb <;> cases wa <;> cases wb <;> simp_all

/-! ## Injection only prepends records -/

theorem inject_types_for_prepend (pkg : String) :
    ∀ (ts : List String) (imps : List Import) (k : Nat),
      ∃ ins : List Import,
        inject_types_for pkg ts imps k = (ins ++ imps, k + ins.length)
  | [], imps, k => ⟨[], by simp [inject_types_for]⟩
  | t :: ts, imps, k => by
    by_cases h2 : find_type_status pkg t imps = 2
    · exact ⟨[], by simp [inject_types_for, h2]⟩
    · by_cases h1 : find_type_status pkg t imps = 1
      · obtain ⟨ins, hins⟩ := inject_types_for_prepend pkg ts imps k
        exact ⟨ins, by simp [inject_types_for, h2, h1, hins]⟩
      · obtain ⟨ins, hins⟩ :=
          inject_types_for_prepend pkg ts ({ name := pkg ++ "." ++ t } :: imps)
            (k + 1)
        refine ⟨ins ++ [{ name := pkg ++ "." ++ t }], ?_⟩
        simp only [inject_types_for, h2, h1, if_false, hins]
        simp [List.append_assoc]
        omega

theorem inject_types_prepend :
    ∀ (table : List (String × TypeEntry)) (imps : List Import) (k : Nat),
      ∃ ins : List Import,
        inject_types table imps k = (ins ++ imps, k + ins.length)
  | [], imps, k => ⟨[], by simp [inject_types]⟩
  | (pkg, .star) :: rest, imps, k => by
    by_cases h : find_pkg_wildcard pkg imps
    · obtain ⟨ins, hins⟩ := inject_types_prepend rest imps k
      exact ⟨ins, by simp [inject_types, h, hins]⟩
    · obtain ⟨ins, hins⟩ :=
        inject_types_prepend rest ({ name := pkg, wildcard := true } :: imps)
          (k + 1)
      refine ⟨ins ++ [{ name := pkg, wildcard := true }], ?_⟩
      simp only [inject_types, h, if_false, hins]
      simp [List.append_assoc]
      omega
  | (pkg, .types ts) :: rest, imps, k => by
    obtain ⟨ins1, h1⟩ := inject_types_for_prepend pkg ts imps k
    obtain ⟨ins2, h2⟩ := inject_types_prepend rest (ins1 ++ imps) (k + ins1.length)
    refine ⟨ins2 ++ ins1, ?_⟩
    simp [inject_types, h1, h2, List.append_assoc]
    omega

theorem inject_members_for_prepend (pkg ty : String) :
    ∀ (ms : List String) (imps : List Import) (k : Nat),
      ∃ ins : List Import,
        inject_members_for pkg ty ms imps k = (ins ++ imps, k + ins.length)
  | [], imps, k => ⟨[], by simp [inject_members_for]⟩
  | m :: ms, imps, k => by
    by_cases h2 : find_member_status pkg ty m imps = 2
    · exact ⟨[], by simp [inject_members_for, h2]⟩
    · by_cases h1 : find_member_status pkg ty m imps = 1
      · obtain ⟨ins, hins⟩ := inject_members_for_prepend pkg ty ms imps k
        exact ⟨ins, by simp [inject_members_for, h2, h1, hins]⟩
      · obtain ⟨ins, hins⟩ := inject_members_for_prepend pkg ty ms
          ({ name := pkg ++ "." ++ ty ++ "." ++ m, static := true } :: imps)
          (k + 1)
        refine ⟨ins ++ [{ name := pkg ++ "." ++ ty ++ "." ++ m, static := true }], ?_⟩
        simp only [inject_members_for, h2, h1, if_false, hins]
        simp [List.append_assoc]
        omega

theorem inject_statics_for_prepend (pkg : String) :
    ∀ (tys : List (String × MemberEntry)) (imps : List Import) (k : Nat),
      ∃ ins : List Import,
        inject_statics_for pkg tys imps k = (ins ++ imps, k + ins.length)
  | [], imps, k => ⟨[], by simp [inject_statics_for]⟩
  | (ty, .star) :: rest, imps, k => by
    by_cases h : find_static_wildcard pkg ty imps
    · obtain ⟨ins, hins⟩ := inject_statics_for_prepend pkg rest imps k
      exact ⟨ins, by simp [inject_statics_for, h, hins]⟩
    · obtain ⟨ins, hins⟩ := inject_statics_for_prepend pkg rest
        ({ name := pkg ++ "." ++ ty, static := true, wildcard := true } :: imps)
        (k + 1)
      refine ⟨ins ++ [{ name := pkg ++ "." ++ ty, static := true, wildcard := true }], ?_⟩
      simp only [inject_statics_for, h, if_false, hins]
      simp [List.append_assoc]
      omega
  | (ty, .members ms) :: rest, imps, k => by
    obtain ⟨ins1, h1⟩ := inject_members_for_prepend pkg ty ms imps k
    obtain ⟨ins2, h2⟩ :=
      inject_statics_for_prepend pkg rest (ins1 ++ imps) (k + ins1.length)
    refine ⟨ins2 ++ ins1, ?_⟩
    simp [inject_statics_for, h1, h2, List.append_assoc]
    omega

theorem inject_statics_prepend :
    ∀ (table : List (String × List (String × MemberEntry)))
      (imps : List Import) (k : Nat),
      ∃ ins : List Import,
        inject_statics table imps k = (ins ++ imps, k + ins.length)
  | [], imps, k => ⟨[], by simp [inject_statics]⟩
  | (pkg, tys) :: rest, imps, k => by
    obtain ⟨ins1, h1⟩ := inject_statics_for_prepend pkg tys imps k
    obtain ⟨ins2, h2⟩ := inject_statics_prepend rest (ins1 ++ imps) (k + ins1.length)
    refine ⟨ins2 ++ ins1, ?_⟩
    simp [inject_statics, h1, h2, List.append_assoc]
    omega

/-- The auto-injection passes only ever prepend records: the result is an
injected block followed by the untouched explicit records, and the tracked
counter is exactly the block's length, so the final slice-sort touches
exactly the injected block. -/
theorem auto_inject_prepend (fs : FeatureSet) (imps : List Import) :
    ∃ ins : List Import,
      auto_inject fs imps = sortSlice ins.length (ins ++ imps) := by
  unfold auto_inject
  by_cases ht : fs "types_auto_imports" = true
  all_goals by_cases hs : fs "statics_auto_imports" = true
  all_goals simp only [ht, hs, if_true, if_false, Bool.false_eq_true]
  · obtain ⟨ins1, h1⟩ := inject_types_prepend auto_imports imps 0
    obtain ⟨ins2, h2⟩ := inject_statics_prepend static_imports (ins1 ++ imps) ins1.length
    refine ⟨ins2 ++ ins1, ?_⟩
    simp only [h1, Nat.zero_add, h2]
    by_cases hk : ins1.length + ins2.length = 0
    · have h1nil : ins1 = [] := List.eq_nil_of_length_eq_zero (by omega)
      have h2nil : ins2 = [] := List.eq_nil_of_length_eq_zero (by omega)
      subst h1nil; subst h2nil
      simp [sortSlice, List.insertionSort]
    · simp only [List.append_assoc, ne_eq, hk, not_false_iff, if_true]
      have : ins1.length + ins2.length = (ins2 ++ ins1).length := by
        simp [List.length_append]
        omega
      rw [this]
  · obtain ⟨ins1, h1⟩ := inject_types_prepend auto_imports imps 0
    refine ⟨ins1, ?_⟩
    simp only [h1, Nat.zero_add]
    by_cases hk : ins1.length = 0
    · have : ins1 = [] := List.eq_nil_of_length_eq_zero hk
      subst this
      simp [sortSlice, List.insertionSort]
    · simp [hk]
  · obtain ⟨ins2, h2⟩ := inject_statics_prepend static_imports imps 0
    refine ⟨ins2, ?_⟩
    simp only [h2, Nat.zero_add]
    by_cases hk : ins2.length = 0
    · have : ins2 = [] := List.eq_nil_of_length_eq_zero hk
      subst this
      simp [sortSlice, List.insertionSort]
    · simp [hk]
  · exact ⟨[], by simp [sortSlice, List.insertionSort]⟩

/-- C1: after auto-injection, the result is the sorted injected block
followed by the untouched explicit records (`auto_inject_prepend` shows the
slice really is the injected block); the sorted block is a permutation of
the injected records, sorted under exactly the claimed total order (static
before non-static, then wildcard before specific, then lexicographically by
the qualified name string); and the final result is the same for any two
iteration orders (permutations) of the injected block, so it does not
depend on the configuration table's iteration order. -/
theorem import_section_sort (inj inj' exp : List Import)
    (hperm : inj.Perm inj') :
    (∀ fs imps, ∃ ins : List Import,
        auto_inject fs imps = sortSlice ins.length (ins ++ imps)) ∧
    sortSlice inj.length (inj ++ exp) =
      (inj.insertionSort import_le) ++ exp ∧
    (inj.insertionSort import_le).Perm inj ∧
    List.Sorted claim_import_order (inj.insertionSort import_le) ∧
    sortSlice inj.length (inj ++ exp) = sortSlice inj'.length (inj' ++ exp) := by
  have hslice : ∀ l e : List Import,
      sortSlice l.length (l ++ e) = (l.insertionSort import_le) ++ e := by
    intro l e
    unfold sortSlice
    rw [List.take_left, List.drop_left]
  refine ⟨auto_inject_prepend, hslice inj exp, List.perm_insertionSort _ _, ?_, ?_⟩
  · exact (List.sorted_insertionSort import_le inj).imp
      (fun h => (import_le_iff_claim _ _).mp h)
  · rw [hslice inj exp, hslice inj' exp]
    have hsorteq : inj.insertionSort import_le = inj'.insertionSort import_le :=
      List.eq_of_perm_of_sorted
        (((List.perm_insertionSort import_le inj).trans hperm).trans
          (List.perm_insertionSort import_le inj').symm)
        (List.sorted_insertionSort import_le inj)
        (List.sorted_insertionSort import_le inj')
    rw [hsorteq]

/-- Witness for C1: two iteration orders of a small injected block in front
of one explicit record produce the same final section. -/
theorem import_section_sort_witness :
    sortSlice 3
        ([{ name := "java.util.List" },
          { name := "java.util", wildcard := true },
          { name := "java.lang.String.join", static := true }] ++
         [{ name := "com.example.Explicit" }]) =
      sortSlice 3
        ([{ name := "java.util", wildcard := true },
          { name := "java.lang.String.join", static := true },
          { name := "java.util.List" }] ++
         [{ name := "com.example.Explicit" }]) :=
  (import_section_sort
    [{ name := "java.util.List" },
     { name := "java.util", wildcard := true },
     { name := "java.lang.String.join", static := true }]
    [{ name := "java.util", wildcard := true },
     { name := "java.lang.String.join", static := true },
     { name := "java.util.List" }]
    [{ name := "com.example.Explicit" }]
    (by decide)).2.2.2.2

/-- Existence characterization of the type-level dedup scan: the status is
nonzero exactly when some existing non-static record is a wildcard import
of the configured package, or has the configured simple type name —
regardless of that record's package. -/
theorem find_type_status_ne_zero_iff (pkg t : String) :
    ∀ imps : List Import,
      find_type_status pkg t imps ≠ 0 ↔
        ∃ i ∈ imps, i.static = false ∧
          ((i.wildcard = true ∧ i.imported_package = pkg) ∨
            i.imported_type = some t)
  | [] => by simp [find_type_status]
  | i :: rest => by
    rw [find_type_status]
    by_cases hstat : i.static
    · simp only [hstat, Bool.not_true, Bool.false_eq_true, if_false]
      rw [find_type_status_ne_zero_iff pkg t rest]
      simp [hstat]
    · simp only [Bool.not_eq_true] at hstat
      simp only [hstat, Bool.not_false, if_true]
      by_cases hw : i.imported_package = pkg ∧ i.wildcard = true
      · simp only [hw.1, hw.2, decide_True, Bool.and_self, if_true]
        simp only [ne_eq, OfNat.ofNat_ne_zero, not_false_iff, true_iff]
        exact ⟨i, List.mem_cons_self _ _, hstat, .inl ⟨hw.2, hw.1⟩⟩
      · have hcond : (decide (i.imported_package = pkg) && i.wildcard) = false := by
          rcases Bool.eq_false_or_eq_true i.wildcard with hw2 | hw2
          · have : ¬ i.imported_package = pkg := fun h => hw ⟨h, hw2⟩
            simp [this]
          · simp [hw2]
        rw [hcond]
        simp only [Bool.false_eq_true, if_false]
        by_cases hty : i.imported_type = some t
        · rw [if_pos hty]
          constructor
          · intro _
            exact ⟨i, List.mem_cons_self _ _, hstat, .inr hty⟩
          · intro _
            exact one_ne_zero
        · rw [if_neg hty, find_type_status_ne_zero_iff pkg t rest]
          constructor
          · rintro ⟨j, hj, hjs, hjc⟩
            exact ⟨j, List.mem_cons_of_mem _ hj, hjs, hjc⟩
          · rintro ⟨j, hj, hjs, hjc⟩
            rcases List.mem_cons.mp hj with rfl | hj'
            · rcases hjc with ⟨hw2, hp2⟩ | hty2
              · exact absurd ⟨hp2, hw2⟩ hw
              · exact absurd hty2 hty
            · exact ⟨j, hj', hjs, hjc⟩

/-- C2 counterexample: the claim says injection of a configured type is
skipped *exactly when* an identical non-static record or a covering
non-static wildcard of the same package exists.  But with an explicit
`import com.foo.List;` — neither identical to `java.util.List` nor a
wildcard — the code still skips the configured `java.util.List`, because
the scan compares only the simple type name. -/
theorem auto_import_dedup_counterexample :
    inject_types [("java.util", .types ["List"])] [{ name := "com.foo.List" }] 0 =
      ([{ name := "com.foo.List" }], 0) ∧
    ¬ ((∃ i ∈ ([{ name := "com.foo.List" }] : List Import),
          i = { name := "java.util.List" }) ∨
       (∃ i ∈ ([{ name := "com.foo.List" }] : List Import),
          i.static = false ∧ i.wildcard = true ∧
            i.imported_package = "java.util")) := by
  decide

/-- C2 (amended): the type-level pass skips a configured type `pkg.T`
exactly when an existing non-static wildcard record covers `pkg`, or some
existing non-static record's *simple type name* equals `T` (regardless of
its package); otherwise it prepends a non-static record for `pkg.T`.  In
particular, with an explicit `import java.util.*;` the resolver does not
add `java.util.List`; with an explicit `import java.util.List;` it does
not add a second `java.util.List` but still adds `java.util.Map`. -/
theorem auto_import_dedup_amended (imps : List Import) (pkg t : String)
    (ts : List String) (k : Nat) :
    (find_type_status pkg t imps ≠ 0 ↔
      (∃ i ∈ imps, i.static = false ∧
        ((i.wildcard = true ∧ i.imported_package = pkg) ∨
          i.imported_type = some t))) ∧
    (find_type_status pkg t imps = 0 →
      inject_types_for pkg (t :: ts) imps k =
        inject_types_for pkg ts ({ name := pkg ++ "." ++ t } :: imps) (k + 1)) ∧
    ((inject_types auto_imports
        [{ name := "java.util", wildcard := true }] 0).1.count
      { name := "java.util.List" } = 0) ∧
    ((inject_types auto_imports [{ name := "java.util.List" }] 0).1.count
        { name := "java.util.List" } = 1 ∧
      { name := "java.util.Map" } ∈
        (inject_types auto_imports [{ name := "java.util.List" }] 0).1) := by
  refine ⟨find_type_status_ne_zero_iff pkg t imps, ?_, by decide, by decide⟩
  intro h0
  rw [inject_types_for]
  simp [h0]

/-- Witness for the amended C2 theorem: injecting configured type
`java.util.List` into an empty section prepends the record. -/
theorem auto_import_dedup_amended_witness :
    inject_types_for "java.util" ["List"] [] 0 =
      inject_types_for "java.util" [] [{ name := "java.util.List" }] (0 + 1) := by
  simpa using (auto_import_dedup_amended [] "java.util" "List" [] 0).2.1 (by decide)

/-! ## Tokens, AST nodes, and the token-stream embedding -/

/-- A token of the stream: a punctuation/operator token; a name or keyword
token (the tokenizer yields keywords as NAME tokens and the parser matches
them by string); an opaque expression token standing for a base-grammar
expression (the base parser is an external collaborator); the ENDMARKER. -/
inductive Tok where
  | punct (s : String)
  | name (s : String)
  | atom (n : Nat)
  | endmarker
  deriving DecidableEq, Repr

/-- The string of a token, used by the parser's string-based matching. -/
def tokStr : Tok → Option String
  | .punct s => some s
  | .name s => some s
  | _ => none

/-- Parser state: the remaining token stream.  The source position of the
current token is encoded as the number of remaining tokens, which maps
injectively to positions of the underlying stream. -/
abbrev PSt := List Tok

/-- `self.would_accept(s)`: does the next token's string equal `s`? -/
def would_accept (s : String) : PSt → Bool
  | t :: _ => tokStr t == some s
  | [] => false

/-- `self.accept(s)`: consume the next token when its string equals `s`. -/
def accept (s : String) : PSt → Option PSt
  | t :: rest => if tokStr t == some s then some rest else none
  | [] => none

/-- `self.accept(s1, s2)`: consume the next two tokens when their strings
match; on a partial match nothing is consumed. -/
def accept2 (s1 s2 : String) : PSt → Option PSt
  | t1 :: t2 :: rest =>
    if tokStr t1 == some s1 && tokStr t2 == some s2 then some rest else none
  | _ => none

/-- `self.would_accept(s1, s2)`. -/
def would_accept2 (s1 s2 : String) : PSt → Bool
  | t1 :: t2 :: _ => tokStr t1 == some s1 && tokStr t2 == some s2
  | _ => false

/-- `self.require(s)`: like `accept` but a `JavaSyntaxError` at the current
token on a mismatch. -/
def require (s : String) (st : PSt) : Except PErr PSt :=
  match accept s st with
  | some st' => .ok st'
  | none => .error (.javaSyntaxError ("expected " ++ s) st.length)

/-- The `tree` node types the modelled fragment constructs (`tree.Type`,
`tree.PrimitiveType`, `tree.GenericType`). -/
inductive JType where
  | primitiveType (name : String)
  | genericType (name : String)
  deriving DecidableEq, Repr

/-- The `tree` expression nodes the modelled fragment constructs.  `atomE`
is an opaque base-grammar expression (see `parse_expr`); `literal` carries
the literal's source text like `tree.Literal`. -/
inductive Expression where
  | atomE (n : Nat)
  | literal (value : String)
  | memberAccess (name : String) (obj : Option Expression)
  | functionCall (name : String) (args : List Expression)
      (obj : Option Expression) (typeargs : List JType)
  | conditionalExpression (condition truepart falsepart : Expression)
  | castExpression (type : JType) (expr : Expression)
  | binaryExpression (op : String) (lhs rhs : Expression)
  | lambdaE (param : String) (body : Expression)
  | indexExpression (indexed index : Expression)

/-- The `tree` statement nodes the modelled fragment constructs. -/
inductive Statement where
  | expressionStatement (expr : Expression)
  | emptyStatement
  | block (stmts : List Statement)

/-- `make_member_access_from_dotted_name` (lines 657–661). -/
def make_member_access_from_dotted_name (qualname : String) : Option Expression :=
  (dotComponents qualname).foldl
    (fun result n => some (.memberAccess n result)) none

/-- Modelled from the spec: `JavaParser.parse_expr` — the base-grammar
expression production is an external collaborator (spec §1 treats the base
parser as out of scope); it is embedded as consuming one opaque expression
token. -/
def parse_expr : PSt → Except PErr (Expression × PSt)
  | .atom n :: rest => .ok (.atomE n, rest)
  | st => .error (.javaSyntaxError "expected expression" st.length)

/-- Modelled from the spec: `JavaParser.parse_assignment`, a base-grammar
production, embedded like `parse_expr`. -/
def parse_assignment : PSt → Except PErr (Expression × PSt) := parse_expr

/-- Modelled from the spec: `JavaParser.parse_logic_or_expr`, a base-grammar
production, embedded like `parse_expr`. -/
def parse_logic_or_expr : PSt → Except PErr (Expression × PSt) := parse_expr

/-- Modelled from the spec: `JavaParser.parse_ident` — consume a NAME token
and return its string. -/
def parse_ident : PSt → Except PErr (String × PSt)
  | .name s :: rest => .ok (s, rest)
  | st => .error (.javaSyntaxError "expected identifier" st.length)

/-- Modelled from the spec: `JavaParser.parse_type` — base-grammar type
production, embedded as consuming one NAME token. -/
def parse_type : PSt → Except PErr (JType × PSt)
  | .name s :: rest => .ok (.genericType s, rest)
  | st => .error (.javaSyntaxError "expected type" st.length)

/-- Modelled from the spec: `JavaParser.parse_type_arg` — base-grammar
production (`?` type wildcards are outside the verified statements),
embedded like `parse_type`. -/
def parse_type_arg : PSt → Except PErr (JType × PSt) := parse_type

/-- Modelled from the spec: base `parse_lambda` — lambda bodies are a base
production; it is embedded minimally as `NAME -> expr` (the verified
statements never exercise it). -/
def parse_lambda (st : PSt) : Except PErr (Expression × PSt) :=
  match st with
  | .name p :: .punct "->" :: rest =>
    match parse_expr rest with
    | .ok (b, st2) => .ok (.lambdaE p b, st2)
    | .error e => .error e
  | _ => .error (.javaSyntaxError "expected lambda" st.length)

/-- `self.would_accept(NAME, '->')` (line 529). -/
def would_accept_name_arrow : PSt → Bool
  | .name _ :: t2 :: _ => tokStr t2 == some "->"
  | _ => false

/-! ## Arguments and trailing commas -/

/-- `JavaPlusPlusParser.parse_arg` (lines 652–655): when the
argument-annotation feature is on, a `NAME ':'` label is consumed and
discarded, then the base argument production runs (embedded as
`parse_expr`, the base `parse_arg` being an external production). -/
def parse_arg (fs : FeatureSet) (st : PSt) : Except PErr (Expression × PSt) :=
  let st1 :=
    if fs "argument_annotations_syntax" then
      match st with
      | .name _ :: t2 :: rest => if tokStr t2 == some ":" then rest else st
      | _ => st
    else st
  parse_expr st1

/-- The `while self.accept(',')` loop of `parse_args` (lines 644–647).
Fuel is consumed only when an iteration parses an argument, so any fuel at
least the number of remaining arguments suffices. -/
def parse_args_loop (fs : FeatureSet) :
    Nat → List Expression → PSt → Except PErr (List Expression × PSt)
  | fuel, args, st =>
    match accept "," st with
    | none => .ok (args, st)
    | some st' =>
      if fs "argument_trailing_commas" && would_accept ")" st' then
        .ok (args, st')
      else
        match fuel with
        | 0 => .error .outOfFuel
        | fuel + 1 => do
          let (a, st2) ← parse_arg fs st'
          parse_args_loop fs fuel (args ++ [a]) st2

/-- `JavaPlusPlusParser.parse_args` (lines 639–650). -/
def parse_args (fs : FeatureSet) (fuel : Nat) (st : PSt) :
    Except PErr (List Expression × PSt) := do
  let st1 ← require "(" st
  if would_accept ")" st1 then do
    let st2 ← require ")" st1
    .ok ([], st2)
  else do
    let (a, st2) ← parse_arg fs st1
    let (args, st3) ← parse_args_loop fs fuel [a] st2
    let st4 ← require ")" st3
    .ok (args, st4)

/-! ## Collection literals -/

/-- `make_list_literal` (lines 733–736). -/
def make_list_literal (elements : List Expression) : Expression :=
  .functionCall "of" elements
    (make_member_access_from_dotted_name "java.util.List") []

/-- `make_set_literal` (lines 791–794). -/
def make_set_literal (elements : List Expression) : Expression :=
  .functionCall "of" elements
    (make_member_access_from_dotted_name "java.util.Set") []

/-- The argument list built by `make_map_literal`'s `≤ 10` branch
(lines 759–762): keys and values interleaved. -/
def interleavePairs : List (Expression × Expression) → List Expression
  | [] => []
  | (k, v) :: rest => k :: v :: interleavePairs rest

/-- `make_map_literal` (lines 757–773): at most ten entries become
`Map.of(k1, v1, ...)`; more become `Map.ofEntries(Map.entry(k1, v1), ...)`. -/
def make_map_literal (entries : List (Expression × Expression)) : Expression :=
  if entries.length ≤ 10 then
    .functionCall "of" (interleavePairs entries)
      (make_member_access_from_dotted_name "java.util.Map") []
  else
    .functionCall "ofEntries"
      (entries.map (fun e => Expression.functionCall "entry" [e.1, e.2]
        (make_member_access_from_dotted_name "java.util.Map") []))
      (make_member_access_from_dotted_name "java.util.Map") []

/-- `parse_map_entry` (lines 775–779). -/
def parse_map_entry (st : PSt) :
    Except PErr ((Expression × Expression) × PSt) := do
  let (key, st1) ← parse_expr st
  let st2 ← require ":" st1
  let (value, st3) ← parse_expr st2
  .ok ((key, value), st3)

/-- The `while self.accept(',')` loop of `parse_set_literal_rest`
(lines 783–786). -/
def parse_set_literal_loop :
    Nat → List Expression → PSt → Except PErr (List Expression × PSt)
  | fuel, elements, st =>
    match accept "," st with
    | none => .ok (elements, st)
    | some st' =>
      if would_accept "\x7d" st' then .ok (elements, st')
      else
        match fuel with
        | 0 => .error .outOfFuel
        | fuel + 1 => do
          let (e, st2) ← parse_expr st'
          parse_set_literal_loop fuel (elements ++ [e]) st2

/-- `parse_set_literal_rest` (lines 781–789). -/
def parse_set_literal_rest (fuel : Nat) (elem : Expression) (st : PSt) :
    Except PErr (Expression × PSt) := do
  let (elements, st1) ← parse_set_literal_loop fuel [elem] st
  let st2 ← require "\x7d" st1
  .ok (make_set_literal elements, st2)

/-- The `while self.accept(',')` loop of `parse_map_literal`
(lines 749–752).  NOTE: faithful to the source, the inner trailing check
tests `would_accept(']')` — a square bracket — not `'}'`. -/
def parse_map_literal_loop :
    Nat → List (Expression × Expression) → PSt →
      Except PErr (List (Expression × Expression) × PSt)
  | fuel, entries, st =>
    match accept "," st with
    | none => .ok (entries, st)
    | some st' =>
      if would_accept "]" st' then .ok (entries, st')
      else
        match fuel with
        | 0 => .error .outOfFuel
        | fuel + 1 => do
          let (e, st2) ← parse_map_entry st'
          parse_map_literal_loop fuel (entries ++ [e]) st2

/-- `parse_map_literal` (lines 738–755).  When the collections-literal
feature is off the base `super().parse_map_literal()` runs — an external
base-grammar production, embedded as an opaque failure since no verified
statement exercises it. -/
def parse_map_literal (fs : FeatureSet) (fuel : Nat) (st : PSt) :
    Except PErr (Expression × PSt) :=
  if fs "collections_literals" = false then
    .error (.javaSyntaxError "base parse_map_literal" st.length)
  else do
    let st1 ← require "\x7b" st
    if would_accept "\x7d" st1 then do
      let st2 ← require "\x7d" st1
      .ok (make_map_literal [], st2)
    else
      match accept "," st1 with
      | some st2 => do
        let st3 ← require "\x7d" st2
        .ok (make_map_literal [], st3)
      | none => do
        let (key, st2) ← parse_expr st1
        match accept ":" st2 with
        | none => parse_set_literal_rest fuel key st2
        | some st3 => do
          let (v, st4) ← parse_expr st3
          let (entries, st5) ← parse_map_literal_loop fuel [(key, v)] st4
          let st6 ← require "\x7d" st5
          .ok (make_map_literal entries, st6)

/-! ## Optional literals -/

/-- `primitive_to_wrapper` (lines 501–523), restricted to the modelled type
fragment (the `VoidType` case never arises in the verified statements). -/
def primitive_to_wrapper : JType → JType
  | .primitiveType n =>
    if n = "boolean" then .genericType "java.lang.Boolean"
    else if n = "byte" then .genericType "java.lang.Byte"
    else if n = "short" then .genericType "java.lang.Short"
    else if n = "char" then .genericType "java.lang.Character"
    else if n = "int" then .genericType "java.lang.Integer"
    else if n = "long" then .genericType "java.lang.Long"
    else if n = "float" then .genericType "java.lang.Float"
    else .genericType "java.lang.Double"
  | t => t

/-- Modelled from the spec: the Python attribute access `value.name` on a
`tree` node.  Only name-carrying nodes define the attribute; a
`CastExpression(type=..., expr=...)` does not (spec §3 describes import and
AST records by their components; a cast has a type and an operand, no
name), so on a cast node the access finds nothing — in CPython it raises
`AttributeError`; the embedding returns `none`, under which every
`== 'int'`-style comparison is false. -/
def Expression.name_attr : Expression → Option String
  | .functionCall n _ _ _ => some n
  | .memberAccess n _ => some n
  | _ => none

/-- `parse_optional_literal_rest` (lines 546–577).  The `value.name`
comparisons of lines 549–558 are the source text as written — note they
read `value.name`, not `value.type.name`.  `parse_annotations` (line 560)
is a base production that consumes nothing when no `@` follows, which is
the case in every verified statement. -/
def parse_optional_literal_rest (value : Expression) (st : PSt) :
    Except PErr (Expression × PSt) :=
  let tn : String × String :=
    match value with
    | .castExpression ty _ =>
      match ty with
      | .primitiveType _ =>
        if value.name_attr = some "int" then ("OptionalInt", "of")
        else if value.name_attr = some "double" then ("OptionalDouble", "of")
        else if value.name_attr = some "long" then ("OptionalLong", "of")
        else ("Optional", "ofNullable")
      | _ => ("Optional", "ofNullable")
    | _ => ("Optional", "ofNullable")
  match accept "<" st with
  | some st1 =>
    (match accept2 "int" ">" st1 with
     | some st2 => .ok (.functionCall "of" [value]
         (make_member_access_from_dotted_name "java.util.OptionalInt") [], st2)
     | none =>
     match accept2 "double" ">" st1 with
     | some st2 => .ok (.functionCall "of" [value]
         (make_member_access_from_dotted_name "java.util.OptionalDouble") [], st2)
     | none =>
     match accept2 "long" ">" st1 with
     | some st2 => .ok (.functionCall "of" [value]
         (make_member_access_from_dotted_name "java.util.OptionalLong") [], st2)
     | none => do
       let (typ, st2) ←
         if would_accept "?" st1 then parse_type_arg st1 else parse_type st1
       let st3 ← require ">" st2
       .ok (.functionCall tn.2 [value]
         (make_member_access_from_dotted_name "java.util.Optional")
         [primitive_to_wrapper typ], st3))
  | none =>
    .ok (.functionCall tn.2 [value]
      (make_member_access_from_dotted_name ("java.util." ++ tn.1)) [], st)

/-- The terminator set of line 538: `('<', ')', ']', '}', ',', ';',
ENDMARKER)`. -/
def optional_terminators : List String := ["<", ")", "]", "\x7d", ",", ";"]

/-- `self.would_accept(('<', ')', ']', '}', ',', ';', ENDMARKER))`. -/
def would_accept_terminator : PSt → Bool
  | [] => false
  | Tok.endmarker :: _ => true
  | t :: _ =>
    match tokStr t with
    | some s => optional_terminators.contains s
    | none => false

/-- `parse_conditional` (lines 528–544).  The lambda attempt runs inside a
checkpoint: a `JavaSyntaxError` rolls the stream back and the logic-or
production reparses from the checkpointed position.  Fuel is consumed only
by the recursive parse of a false-branch. -/
def parse_conditional (fs : FeatureSet) : Nat → PSt → Except PErr (Expression × PSt)
  | fuel, st => do
    let (result, st1) ←
      if would_accept_name_arrow st || would_accept "(" st then
        match parse_lambda st with
        | .ok r => .ok r
        | .error (.javaSyntaxError _ _) => parse_logic_or_expr st
        | .error e => .error e
      else parse_logic_or_expr st
    match accept "?" st1 with
    | none => .ok (result, st1)
    | some st2 =>
      if fs "optional_literals" && would_accept_terminator st2 then
        parse_optional_literal_rest result st2
      else do
        let (truepart, st3) ← parse_assignment st2
        let st4 ← require ":" st3
        match fuel with
        | 0 => .error .outOfFuel
        | fuel + 1 => do
          let (falsepart, st5) ← parse_conditional fs fuel st4
          .ok (.conditionalExpression result truepart falsepart, st5)

/-- `parse_primary` (lines 663–715).  The regex-literal and byte-string
branches are outside the modelled fragment (their token kinds never occur
in the verified statements); the optional-literal `?` branch
(lines 695–712) is embedded, and the base fallback consumes one opaque
expression token. -/
def parse_primary (fs : FeatureSet) (st : PSt) : Except PErr (Expression × PSt) :=
  if fs "optional_literals" then
    match accept "?" st with
    | some st1 =>
      (match accept "<" st1 with
       | some st2 =>
         (match accept2 "int" ">" st2 with
          | some st3 => .ok (.functionCall "empty" []
              (make_member_access_from_dotted_name "java.util.OptionalInt") [], st3)
          | none =>
          match accept2 "double" ">" st2 with
          | some st3 => .ok (.functionCall "empty" []
              (make_member_access_from_dotted_name "java.util.OptionalDouble") [], st3)
          | none =>
          match accept2 "long" ">" st2 with
          | some st3 => .ok (.functionCall "empty" []
              (make_member_access_from_dotted_name "java.util.OptionalLong") [], st3)
          | none => do
            let (typ, st3) ←
              if would_accept "?" st2 then parse_type_arg st2 else parse_type st2
            let st4 ← require ">" st3
            .ok (.functionCall "empty" []
              (make_member_access_from_dotted_name "java.util.Optional")
              [primitive_to_wrapper typ], st4))
       | none => .ok (.functionCall "empty" []
           (make_member_access_from_dotted_name "java.util.Optional") [], st1))
    | none => parse_expr st
  else parse_expr st

/-- The postfix-operator loop of the source's `parse_postfix`
(lines 619–637; renamed, the original name collides with a Lean keyword
fragment).  Member access, indexing and method references are base-grammar
productions; the extension is `!`, which — when the optional-literal
feature is on — lowers to an `orElseThrow()` call on the operand
(lines 633–634). -/
def parse_postfix_ops (fs : FeatureSet) :
    Nat → Expression → PSt → Except PErr (Expression × PSt)
  | fuel, result, st =>
    match fuel with
    | 0 => .error .outOfFuel
    | fuel + 1 =>
      if would_accept "." st then
        match st with
        | _ :: .name n :: rest =>
          parse_postfix_ops fs fuel (.memberAccess n (some result)) rest
        | _ => .error (.javaSyntaxError "expected name" st.length)
      else
        match accept "[" st with
        | some st1 => do
          let (index, st2) ← parse_expr st1
          let st3 ← require "]" st2
          parse_postfix_ops fs fuel (.indexExpression result index) st3
        | none =>
          if would_accept "::" st then
            .error (.javaSyntaxError "method reference outside fragment" st.length)
          else if fs "optional_literals" then
            match accept "!" st with
            | some st1 =>
              parse_postfix_ops fs fuel
                (.functionCall "orElseThrow" [] (some result) []) st1
            | none => .ok (result, st)
          else .ok (result, st)

/-- The source's `parse_postfix` entry: a primary followed by the
postfix-operator loop. -/
def parse_postfix_expr (fs : FeatureSet) (fuel : Nat) (st : PSt) :
    Except PErr (Expression × PSt) := do
  let (p, st1) ← parse_primary fs st
  parse_postfix_ops fs fuel p st1

/-! ## Print statements -/

/-- `make_print_statement` (lines 413–414). -/
def make_print_statement (name : String) (arg : Option Expression) : Statement :=
  .expressionStatement (.functionCall name
    (match arg with | none => [] | some a => [a])
    (make_member_access_from_dotted_name "java.lang.System.out") [])

/-- `self.would_accept((';', ENDMARKER))`. -/
def at_semi_or_end : PSt → Bool
  | [] => false
  | Tok.endmarker :: _ => true
  | t :: _ => tokStr t == some ";"

/-- The comma-separated element loop of the print-statement branches
(e.g. lines 348–352). -/
def parse_print_args_commas (fs : FeatureSet) :
    Nat → List Expression → PSt → Except PErr (List Expression × PSt)
  | fuel, elements, st =>
    match accept "," st with
    | none => .ok (elements, st)
    | some st' =>
      if fs "other_trailing_commas" && would_accept ";" st' then
        .ok (elements, st')
      else
        match fuel with
        | 0 => .error .outOfFuel
        | fuel + 1 => do
          let (a, st2) ← parse_arg fs st'
          parse_print_args_commas fs fuel (elements ++ [a]) st2

/-- The space-separated element loop of the print-statement branches
(e.g. lines 354–355). -/
def parse_print_args_spaces (fs : FeatureSet) :
    Nat → List Expression → PSt → Except PErr (List Expression × PSt)
  | fuel, elements, st =>
    if at_semi_or_end st then .ok (elements, st)
    else
      match fuel with
      | 0 => .error .outOfFuel
      | fuel + 1 => do
        let (a, st2) ← parse_arg fs st
        parse_print_args_spaces fs fuel (elements ++ [a]) st2

/-- The element collection shared by the print branches: one argument, then
either the comma loop, nothing (`;` next), or the space loop. -/
def parse_print_elements (fs : FeatureSet) (fuel : Nat) (st : PSt) :
    Except PErr (List Expression × PSt) := do
  let (e, st1) ← parse_arg fs st
  if would_accept "," st1 then parse_print_args_commas fs fuel [e] st1
  else if would_accept ";" st1 then .ok ([e], st1)
  else parse_print_args_spaces fs fuel [e] st1

/-- The statement chain built for a multi-element `print`/`println`
(lines 359–364): each element printed with a single-space literal printed
between consecutive elements, the last call using `lastName`. -/
def chain_stmts (lastName : String) : List Expression → List Statement
  | [] => []
  | [a] => [make_print_statement lastName (some a)]
  | a :: rest =>
    make_print_statement "print" (some a) ::
      make_print_statement "print" (some (.literal "\x27 \x27")) ::
        chain_stmts lastName rest

/-- Modelled from the spec: `super().parse_statement()` — base-grammar
statements are an external production, embedded as one opaque expression
statement terminated by `;`. -/
def base_parse_statement (st : PSt) : Except PErr (Statement × PSt) := do
  let (e, st1) ← parse_expr st
  let st2 ← require ";" st1
  .ok (.expressionStatement e, st2)

/-- `parse_statement` (lines 342–411): the print-statement feature branch
with its four statement forms, falling back to the base production. -/
def parse_statement (fs : FeatureSet) (fuel : Nat) (st : PSt) :
    Except PErr (Statement × PSt) :=
  if fs "print_statements" then
    match accept "println" st with
    | some st1 =>
      (match accept ";" st1 with
       | some st2 => .ok (make_print_statement "println" none, st2)
       | none => do
         let (elements, st2) ← parse_print_elements fs fuel st1
         let st3 ← require ";" st2
         match elements with
         | [a] => .ok (make_print_statement "println" (some a), st3)
         | _ => .ok (.block (chain_stmts "println" elements), st3))
    | none =>
    match accept "print" st with
    | some st1 =>
      (match accept ";" st1 with
       | some st2 => .ok (.emptyStatement, st2)
       | none => do
         let (elements, st2) ← parse_print_elements fs fuel st1
         let st3 ← require ";" st2
         match elements with
         | [a] => .ok (make_print_statement "print" (some a), st3)
         | _ => .ok (.block (chain_stmts "print" elements), st3))
    | none =>
    match accept "printf" st with
    | some st1 => do
      let (args, st2) ← parse_print_elements fs fuel st1
      let st3 ← require ";" st2
      .ok (.expressionStatement (.functionCall "printf" args
        (make_member_access_from_dotted_name "java.lang.System.out") []), st3)
    | none =>
    match accept "printfln" st with
    | some st1 => do
      let (e, st2) ← parse_arg fs st1
      let first := Expression.binaryExpression "+" e (.literal "\"%n\"")
      let (args, st3) ←
        if would_accept "," st2 then parse_print_args_commas fs fuel [first] st2
        else if would_accept ";" st2 then .ok ([first], st2)
        else parse_print_args_spaces fs fuel [first] st2
      let st4 ← require ";" st3
      .ok (.expressionStatement (.functionCall "printf" args
        (make_member_access_from_dotted_name "java.lang.System.out") []), st4)
    | none => base_parse_statement st
  else base_parse_statement st

/-! ## Import declarations and feature directives -/

/-- The dotted feature-path loop of `parse_import_declarations` and
`parse_unimport` (lines 216–221 / 242–247): `.' '*'` appends `".*"` and
leaves the loop, `'.' IDENT` extends the path. -/
def parse_feature_path_dotstar : Nat → String → PSt → Except PErr (String × PSt)
  | fuel, acc, st =>
    match accept "." st with
    | none => .ok (acc, st)
    | some st' =>
      match accept "*" st' with
      | some st2 => .ok (acc ++ ".*", st2)
      | none =>
        match fuel with
        | 0 => .error .outOfFuel
        | fuel + 1 => do
          let (n, st2) ← parse_ident st'
          parse_feature_path_dotstar fuel (acc ++ "." ++ n) st2

/-- The dotted feature-path loop of `parse_from_import_declarations`
(lines 276–281).  NOTE: faithful to line 278, a `'.' '*'` appends a bare
`"*"` — without the dot — before leaving the loop. -/
def parse_feature_path_star : Nat → String → PSt → Except PErr (String × PSt)
  | fuel, acc, st =>
    match accept "." st with
    | none => .ok (acc, st)
    | some st' =>
      match accept "*" st' with
      | some st2 => .ok (acc ++ "*", st2)
      | none =>
        match fuel with
        | 0 => .error .outOfFuel
        | fuel + 1 => do
          let (n, st2) ← parse_ident st'
          parse_feature_path_star fuel (acc ++ "." ++ n) st2

/-- Modelled from the spec: the dotted-name tail of the base
`JavaParser.parse_import_name` — `('.' IDENT)*` with an optional trailing
`'.' '*'` wildcard (spec §4.2 form (1)). -/
def parse_import_name_loop : Nat → String → PSt → Except PErr ((String × Bool) × PSt)
  | fuel, acc, st =>
    match accept2 "." "*" st with
    | some st' => .ok ((acc, true), st')
    | none =>
      match st with
      | .punct "." :: .name n :: rest =>
        (match fuel with
         | 0 => .error .outOfFuel
         | fuel + 1 => parse_import_name_loop fuel (acc ++ "." ++ n) rest)
      | _ => .ok ((acc, false), st)

/-- Modelled from the spec: the base `JavaParser.parse_import_name`. -/
def parse_import_name (fuel : Nat) (st : PSt) :
    Except PErr ((String × Bool) × PSt) := do
  let (n, st1) ← parse_ident st
  parse_import_name_loop fuel n st1

/-- The comma loop of `parse_import_declarations` (lines 209–229).  The
feature set is threaded because a directive item mutates it via
`enable_feature` — with no try/except around the call (line 222), so an
unknown name propagates as the bare `ValueError`. -/
def parse_import_declarations_loop :
    FeatureSet → Nat → List Import → Bool → PSt →
      Except PErr ((List Import × FeatureSet) × PSt)
  | fs, fuel, imps, static, st => do
    let r ←
      if static then do
        let ((nm, wc), st1) ← parse_import_name fuel st
        pure ((imps ++ [{ name := nm, static := static, wildcard := wc }], fs), st1)
      else
        match accept2 "java" "++" st with
        | some st1 =>
          (match accept2 "." "*" st1 with
           | some st2 => do
             let fs' ← enable_feature fs "*" true
             pure ((imps, fs'), st2)
           | none => do
             let st2 ← require "." st1
             let (first, st3) ← parse_ident st2
             let (feature, st4) ← parse_feature_path_dotstar fuel first st3
             let fs' ← enable_feature fs feature true
             pure ((imps, fs'), st4))
        | none => do
          let ((nm, wc), st1) ← parse_import_name fuel st
          pure ((imps ++ [{ name := nm, static := static, wildcard := wc }], fs), st1)
    let ((imps', fs'), st') := r
    match accept "," st' with
    | none => .ok ((imps', fs'), st')
    | some st2 =>
      if fs' "other_trailing_commas" && would_accept ";" st2 then
        .ok ((imps', fs'), st2)
      else
        match fuel with
        | 0 => .error .outOfFuel
        | fuel + 1 => parse_import_declarations_loop fs' fuel imps' static st2

/-- `parse_import_declarations` (lines 205–231). -/
def parse_import_declarations (fs : FeatureSet) (fuel : Nat) (st : PSt) :
    Except PErr ((List Import × FeatureSet) × PSt) := do
  let st1 ← require "import" st
  let s :=
    match accept "static" st1 with
    | some st2 => (true, st2)
    | none => (false, st1)
  let ((imps, fs'), st3) ← parse_import_declarations_loop fs fuel [] s.1 s.2
  let st4 ← require ";" st3
  .ok ((imps, fs'), st4)

/-- The comma loop of `parse_unimport` (lines 236–252): feature-disable
directives only; like line 248, `enable_feature` runs with no try/except,
so an unknown name propagates as the bare `ValueError`. -/
def parse_unimport_loop :
    FeatureSet → Nat → PSt → Except PErr (FeatureSet × PSt)
  | fs, fuel, st => do
    let r ←
      match accept2 "." "*" st with
      | some st' => pure (("*" : String), st')
      | none => do
        let st' ← require "." st
        let (first, st2) ← parse_ident st'
        parse_feature_path_dotstar fuel first st2
    let (feature, st1) := r
    let fs' ← enable_feature fs feature false
    match accept "," st1 with
    | none => .ok (fs', st1)
    | some st2 =>
      if fs' "other_trailing_commas" && would_accept ";" st2 then
        .ok (fs', st2)
      else
        match fuel with
        | 0 => .error .outOfFuel
        | fuel + 1 => parse_unimport_loop fs' fuel st2

/-- `parse_unimport` (lines 233–253).  The source requires the two-token
lexeme `java ++` and does not consume the closing `;` (the caller's loop
does). -/
def parse_unimport (fs : FeatureSet) (fuel : Nat) (st : PSt) :
    Except PErr (FeatureSet × PSt) := do
  let st1 ← require "unimport" st
  let st2 ← require "java" st1
  let st3 ← require "++" st2
  parse_unimport_loop fs fuel st3

/-- Modelled from the spec: the dotted-name tail of the base
`JavaParser.parse_qual_name` — `('.' IDENT)*`, no wildcard. -/
def parse_qual_name_loop : Nat → String → PSt → Except PErr (String × PSt)
  | fuel, acc, st =>
    match st with
    | .punct "." :: .name n :: rest =>
      (match fuel with
       | 0 => .error .outOfFuel
       | fuel + 1 => parse_qual_name_loop fuel (acc ++ "." ++ n) rest)
    | _ => .ok (acc, st)

/-- Modelled from the spec: the base `JavaParser.parse_qual_name`. -/
def parse_qual_name (fuel : Nat) (st : PSt) : Except PErr (String × PSt) := do
  let (n, st1) ← parse_ident st
  parse_qual_name_loop fuel n st1

/-- `parse_from_import_name` (lines 308–314).  Modelled from the spec for
the name concatenation: the trailing names are appended to the base to form
the full qualified record (spec §4.2 form (3)). -/
def parse_from_import_name (fuel : Nat) (base : String) (st : PSt) :
    Except PErr ((String × Bool) × PSt) :=
  match accept "*" st with
  | some st' => .ok ((base, true), st')
  | none => do
    let (q, st1) ← parse_qual_name fuel st
    match accept2 "." "*" st1 with
    | some st2 => .ok ((base ++ "." ++ q, true), st2)
    | none => .ok ((base ++ "." ++ q, false), st1)

/-- The comma loop of the feature-directive form of
`parse_from_import_declarations` (lines 273–289).  Here — and only here —
the `enable_feature` call sits in a `try/except ValueError` that re-raises
a `JavaSyntaxError` tagged with the position recorded *before* the feature
path was parsed (lines 274, 282–285). -/
def parse_from_feature_loop :
    FeatureSet → Bool → Nat → PSt → Except PErr (FeatureSet × PSt)
  | fs, enabledFlag, fuel, st => do
    let start_pos := st.length
    let (first, st1) ← parse_ident st
    let (feature, st2) ← parse_feature_path_star fuel first st1
    let fs' ←
      match enable_feature fs feature enabledFlag with
      | .ok f => Except.ok f
      | .error (.valueError m) => .error (.javaSyntaxError m start_pos)
      | .error e => .error e
    match accept "," st2 with
    | none => .ok (fs', st2)
    | some st3 =>
      if fs' "other_trailing_commas" && would_accept ";" st3 then
        .ok (fs', st3)
      else
        match fuel with
        | 0 => .error .outOfFuel
        | fuel + 1 => parse_from_feature_loop fs' enabledFlag fuel st3

/-- The comma loop of the ordinary `from base import names` form
(lines 298–302). -/
def parse_from_names_loop (fs : FeatureSet) (base : String) (static : Bool) :
    Nat → List Import → PSt → Except PErr (List Import × PSt)
  | fuel, imps, st =>
    match accept "," st with
    | none => .ok (imps, st)
    | some st1 =>
      if fs "other_trailing_commas" && would_accept ";" st1 then
        .ok (imps, st1)
      else
        match fuel with
        | 0 => .error .outOfFuel
        | fuel + 1 => do
          let ((n, w), st2) ← parse_from_import_name fuel base st1
          parse_from_names_loop fs base static fuel
            (imps ++ [{ name := n, static := static, wildcard := w }]) st2

/-- `parse_from_import_declarations` (lines 255–306). -/
def parse_from_import_declarations (fs : FeatureSet) (fuel : Nat) (st : PSt) :
    Except PErr ((List Import × FeatureSet) × PSt) := do
  let st1 ← require "from" st
  match accept2 "java" "++" st1 with
  | some st2 => do
    let ef ←
      match accept "import" st2 with
      | some st3 => Except.ok ((true : Bool), st3)
      | none => do
        let st3 ← require "unimport" st2
        Except.ok (false, st3)
    let (enabledFlag, st3) := ef
    match accept "*" st3 with
    | some st4 => do
      let fs' ← enable_feature fs "*" enabledFlag
      let st5 ← require ";" st4
      .ok (([], fs'), st5)
    | none => do
      let (fs', st4) ← parse_from_feature_loop fs enabledFlag fuel st3
      let st5 ← require ";" st4
      .ok (([], fs'), st5)
  | none => do
    let (base, st2) ← parse_qual_name fuel st1
    let st3 ← require "import" st2
    let s :=
      match accept "static" st3 with
      | some st4 => (true, st4)
      | none => (false, st3)
    let ((n1, w1), st5) ← parse_from_import_name fuel base s.2
    let (imps, st6) ← parse_from_names_loop fs base s.1 fuel
      [{ name := n1, static := s.1, wildcard := w1 }] st5
    let st7 ← require ";" st6
    .ok ((imps, fs), st7)

/-! ## C8: trailing commas in argument lists -/

theorem accept_eq_none (s : String) (st : PSt) (h : would_accept s st = false) :
    accept s st = none := by
  cases st with
  | nil => rfl
  | cons t rest =>
    simp only [would_accept] at h
    simp [accept, h]

theorem none_beq_some (s : String) :
    ((none : Option String) == some s) = false := rfl

theorem some_beq_some (s t : String) :
    ((some s : Option String) == some t) = (s == t) := rfl

/-- The token sequence `, a1 , a2 ...` of a comma-separated argument tail. -/
def commaSepAtoms : List Nat → List Tok
  | [] => []
  | n :: ns => Tok.punct "," :: Tok.atom n :: commaSepAtoms ns

theorem parse_args_loop_atoms (fs : FeatureSet) :
    ∀ (ns : List Nat) (fuel : Nat) (acc : List Expression) (tail : PSt),
      ns.length ≤ fuel →
      would_accept "," tail = false →
      parse_args_loop fs fuel acc (commaSepAtoms ns ++ tail) =
        .ok (acc ++ ns.map .atomE, tail)
  | [], fuel, acc, tail, _, htail => by
    simp [commaSepAtoms, parse_args_loop, accept_eq_none _ _ htail]
  | n :: ns, fuel, acc, tail, hfuel, htail => by
    simp only [commaSepAtoms, List.cons_append]
    rw [parse_args_loop]
    simp only [accept, tokStr, beq_self_eq_true, if_true]
    have hw : would_accept ")" (Tok.atom n :: (commaSepAtoms ns ++ tail)) = false := by
      simp [would_accept, tokStr]
    rw [hw, Bool.and_false]
    simp only [Bool.false_eq_true, if_false]
    match fuel, hfuel with
    | fuel + 1, hfuel =>
      simp only [parse_arg, parse_expr]
      have : (if fs "argument_annotations_syntax" = true then
          Tok.atom n :: (commaSepAtoms ns ++ tail)
          else Tok.atom n :: (commaSepAtoms ns ++ tail)) =
          Tok.atom n :: (commaSepAtoms ns ++ tail) := by
        split <;> rfl
      rw [this]
      have IH := parse_args_loop_atoms fs ns fuel (acc ++ [.atomE n]) tail
        (Nat.succ_le_succ_iff.mp (by simpa using hfuel)) htail
      simpa using IH

theorem parse_args_loop_atoms_trailing (fs : FeatureSet)
    (hon : fs "argument_trailing_commas" = true) :
    ∀ (ns : List Nat) (fuel : Nat) (acc : List Expression) (rest : PSt),
      ns.length ≤ fuel →
      parse_args_loop fs fuel acc
          (commaSepAtoms ns ++ (Tok.punct "," :: Tok.punct ")" :: rest)) =
        .ok (acc ++ ns.map .atomE, Tok.punct ")" :: rest)
  | [], fuel, acc, rest, _ => by
    rw [commaSepAtoms, List.nil_append, parse_args_loop]
    simp [accept, tokStr, would_accept, hon]
  | n :: ns, fuel, acc, rest, hfuel => by
    simp only [commaSepAtoms, List.cons_append]
    rw [parse_args_loop]
    simp only [accept, tokStr, beq_self_eq_true, if_true]
    have hw : would_accept ")"
        (Tok.atom n :: (commaSepAtoms ns ++ (Tok.punct "," :: Tok.punct ")" :: rest))) =
        false := by
      simp [would_accept, tokStr]
    rw [hw, Bool.and_false]
    simp only [Bool.false_eq_true, if_false]
    match fuel, hfuel with
    | fuel + 1, hfuel =>
      simp only [parse_arg, parse_expr]
      have hcol : (if fs "argument_annotations_syntax" = true then
          Tok.atom n :: (commaSepAtoms ns ++ (Tok.punct "," :: Tok.punct ")" :: rest))
          else Tok.atom n :: (commaSepAtoms ns ++ (Tok.punct "," :: Tok.punct ")" :: rest))) =
          Tok.atom n :: (commaSepAtoms ns ++ (Tok.punct "," :: Tok.punct ")" :: rest)) := by
        split <;> rfl
      rw [hcol]
      have IH := parse_args_loop_atoms_trailing fs hon ns fuel (acc ++ [.atomE n]) rest
        (Nat.succ_le_succ_iff.mp (by simpa using hfuel))
      simpa using IH

theorem parse_args_loop_atoms_trailing_off (fs : FeatureSet)
    (hoff : fs "argument_trailing_commas" = false) :
    ∀ (ns : List Nat) (fuel : Nat) (acc : List Expression) (rest : PSt),
      ns.length + 1 ≤ fuel →
      parse_args_loop fs fuel acc
          (commaSepAtoms ns ++ (Tok.punct "," :: Tok.punct ")" :: rest)) =
        .error (.javaSyntaxError "expected expression" (rest.length + 1))
  | [], fuel, acc, rest, hfuel => by
    rw [commaSepAtoms, List.nil_append, parse_args_loop]
    simp only [accept, tokStr, beq_self_eq_true, if_true, hoff, Bool.false_and,
      Bool.false_eq_true, if_false]
    match fuel, hfuel with
    | fuel + 1, _ =>
      simp only [parse_arg, parse_expr]
      have hcol : (if fs "argument_annotations_syntax" = true then
          Tok.punct ")" :: rest else Tok.punct ")" :: rest) =
          Tok.punct ")" :: rest := by
        split <;> rfl
      rw [hcol]
      rfl
  | n :: ns, fuel, acc, rest, hfuel => by
    simp only [commaSepAtoms, List.cons_append]
    rw [parse_args_loop]
    simp only [accept, tokStr, beq_self_eq_true, if_true]
    have hw : would_accept ")"
        (Tok.atom n :: (commaSepAtoms ns ++ (Tok.punct "," :: Tok.punct ")" :: rest))) =
        false := by
      simp [would_accept, tokStr]
    rw [hw, Bool.and_false]
    simp only [Bool.false_eq_true, if_false]
    match fuel, hfuel with
    | fuel + 1, hfuel =>
      simp only [parse_arg, parse_expr]
      have hcol : (if fs "argument_annotations_syntax" = true then
          Tok.atom n :: (commaSepAtoms ns ++ (Tok.punct "," :: Tok.punct ")" :: rest))
          else Tok.atom n :: (commaSepAtoms ns ++ (Tok.punct "," :: Tok.punct ")" :: rest))) =
          Tok.atom n :: (commaSepAtoms ns ++ (Tok.punct "," :: Tok.punct ")" :: rest)) := by
        split <;> rfl
      rw [hcol]
      have IH := parse_args_loop_atoms_trailing_off fs hoff ns fuel (acc ++ [.atomE n]) rest
        (Nat.succ_le_succ_iff.mp (by simpa using hfuel))
      simpa using IH

/-- C8: with the argument-trailing-comma feature enabled, `f(a, b,)` parses
to the same argument list as `f(a, b)` (and the same remaining stream);
with the feature disabled, the trailing comma before `)` is a syntax error
at the closing token. -/
theorem trailing_comma_args (fs fs' : FeatureSet) (n : Nat) (ns : List Nat)
    (rest : PSt) (fuel : Nat) (hfuel : ns.length + 1 ≤ fuel)
    (hon : fs "argument_trailing_commas" = true)
    (hoff : fs' "argument_trailing_commas" = false) :
    parse_args fs fuel (Tok.punct "(" :: Tok.atom n :: (commaSepAtoms ns ++
        (Tok.punct "," :: Tok.punct ")" :: rest))) =
      .ok ((n :: ns).map .atomE, rest) ∧
    parse_args fs fuel (Tok.punct "(" :: Tok.atom n :: (commaSepAtoms ns ++
        (Tok.punct ")" :: rest))) =
      .ok ((n :: ns).map .atomE, rest) ∧
    parse_args fs' fuel (Tok.punct "(" :: Tok.atom n :: (commaSepAtoms ns ++
        (Tok.punct "," :: Tok.punct ")" :: rest))) =
      .error (.javaSyntaxError "expected expression" (rest.length + 1)) := by
  have hfuel' : ns.length ≤ fuel := Nat.le_of_succ_le hfuel
  have harg : ∀ (g : FeatureSet) (t : PSt),
      parse_arg g (Tok.atom n :: t) = .ok (.atomE n, t) := by
    intro g t
    simp only [parse_arg, parse_expr]
    have : (if g "argument_annotations_syntax" = true then
        Tok.atom n :: t else Tok.atom n :: t) = Tok.atom n :: t := by
      split <;> rfl
    rw [this]
  refine ⟨?_, ?_, ?_⟩
  · have hloop := parse_args_loop_atoms_trailing fs hon ns fuel [.atomE n] rest hfuel'
    simp only [parse_args, Bind.bind, Except.bind, require, accept, tokStr,
      would_accept, beq_self_eq_true, if_true, harg, hloop]
    simp
  · have hloop := parse_args_loop_atoms fs ns fuel [.atomE n] (Tok.punct ")" :: rest)
      hfuel' (by simp [would_accept, tokStr])
    simp only [parse_args, Bind.bind, Except.bind, require, accept, tokStr,
      would_accept, beq_self_eq_true, if_true, harg, hloop]
    simp
  · have hloop := parse_args_loop_atoms_trailing_off fs' hoff ns fuel [.atomE n] rest hfuel
    simp only [parse_args, Bind.bind, Except.bind, require, accept, tokStr,
      would_accept, beq_self_eq_true, if_true, harg, hloop]
    simp

/-- Witness for C8: `f(1, 2,)` with the default feature set. -/
theorem trailing_comma_args_witness :
    parse_args JavaPlusPlusParser_init 2
        [Tok.punct "(", Tok.atom 1, Tok.punct ",", Tok.atom 2,
         Tok.punct ",", Tok.punct ")"] =
      .ok ([.atomE 1, .atomE 2], []) := by
  have := (trailing_comma_args JavaPlusPlusParser_init
      (set_attr JavaPlusPlusParser_init "argument_trailing_commas" false)
      1 [2] [] 2 (by decide) (by decide) (by decide)).1
  simpa [commaSepAtoms] using this

/-! ## C5: brace-literal disambiguation -/

/-- The token sequence `, a1 : b1 , a2 : b2 ...` of a map-entry tail. -/
def commaEntries : List (Nat × Nat) → List Tok
  | [] => []
  | (a, b) :: ps =>
    Tok.punct "," :: Tok.atom a :: Tok.punct ":" :: Tok.atom b :: commaEntries ps

theorem parse_set_literal_loop_atoms :
    ∀ (ns : List Nat) (fuel : Nat) (acc : List Expression) (rest : PSt),
      ns.length ≤ fuel →
      parse_set_literal_loop fuel acc
          (commaSepAtoms ns ++ (Tok.punct "\x7d" :: rest)) =
        .ok (acc ++ ns.map .atomE, Tok.punct "\x7d" :: rest)
  | [], fuel, acc, rest, _ => by
    rw [commaSepAtoms, List.nil_append, parse_set_literal_loop]
    simp [accept, tokStr]
  | n :: ns, fuel, acc, rest, hfuel => by
    simp only [commaSepAtoms, List.cons_append]
    rw [parse_set_literal_loop]
    simp only [accept, tokStr, beq_self_eq_true, if_true]
    rw [show would_accept "\x7d"
        (Tok.atom n :: (commaSepAtoms ns ++ (Tok.punct "\x7d" :: rest))) = false by
      simp [would_accept, tokStr]]
    simp only [Bool.false_eq_true, if_false]
    match fuel, hfuel with
    | fuel + 1, hfuel =>
      have IH := parse_set_literal_loop_atoms ns fuel (acc ++ [.atomE n]) rest
        (Nat.succ_le_succ_iff.mp (by simpa using hfuel))
      simpa [parse_expr, Bind.bind, Except.bind] using IH

theorem parse_map_literal_loop_pairs :
    ∀ (ps : List (Nat × Nat)) (fuel : Nat)
      (acc : List (Expression × Expression)) (rest : PSt),
      ps.length ≤ fuel →
      parse_map_literal_loop fuel acc
          (commaEntries ps ++ (Tok.punct "\x7d" :: rest)) =
        .ok (acc ++ ps.map (fun p => (Expression.atomE p.1, Expression.atomE p.2)),
          Tok.punct "\x7d" :: rest)
  | [], fuel, acc, rest, _ => by
    rw [commaEntries, List.nil_append, parse_map_literal_loop]
    simp [accept, tokStr]
  | (a, b) :: ps, fuel, acc, rest, hfuel => by
    simp only [commaEntries, List.cons_append]
    rw [parse_map_literal_loop]
    simp only [accept, tokStr, beq_self_eq_true, if_true]
    rw [show would_accept "]" (Tok.atom a :: Tok.punct ":" :: Tok.atom b ::
        (commaEntries ps ++ (Tok.punct "\x7d" :: rest))) = false by
      simp [would_accept, tokStr]]
    simp only [Bool.false_eq_true, if_false]
    match fuel, hfuel with
    | fuel + 1, hfuel =>
      have IH := parse_map_literal_loop_pairs ps fuel
        (acc ++ [(.atomE a, .atomE b)]) rest
        (Nat.succ_le_succ_iff.mp (by simpa using hfuel))
      simpa [parse_map_entry, parse_expr, require, accept, tokStr,
        Bind.bind, Except.bind] using IH

/-- C5: a brace literal is disambiguated by whether `':'` follows the first
element.  (i) without a colon, parsing continues as a set literal, and
(ii) `{e1, ..., en}` lowers to `Set.of(e1, ..., en)`; a colon form parses
every entry and lowers through `make_map_literal`, producing
(iii) `Map.of(k1, v1, ...)` for at most ten entries and
(iv) `Map.ofEntries(Map.entry(k1, v1), ...)` for more than ten. -/
theorem brace_literal_disambiguation (fs : FeatureSet)
    (hon : fs "collections_literals" = true) :
    (∀ fuel k st1, would_accept ":" st1 = false →
      parse_map_literal fs fuel (Tok.punct "\x7b" :: Tok.atom k :: st1) =
        parse_set_literal_rest fuel (.atomE k) st1) ∧
    (∀ fuel k ns rest, ns.length ≤ fuel →
      parse_map_literal fs fuel (Tok.punct "\x7b" :: Tok.atom k ::
          (commaSepAtoms ns ++ (Tok.punct "\x7d" :: rest))) =
        .ok (.functionCall "of" ((k :: ns).map .atomE)
          (make_member_access_from_dotted_name "java.util.Set") [], rest)) ∧
    (∀ fuel a b ps rest, ps.length ≤ fuel →
      parse_map_literal fs fuel (Tok.punct "\x7b" :: Tok.atom a :: Tok.punct ":" ::
          Tok.atom b :: (commaEntries ps ++ (Tok.punct "\x7d" :: rest))) =
        .ok (make_map_literal
          (((a, b) :: ps).map (fun p => (Expression.atomE p.1, Expression.atomE p.2))),
          rest)) ∧
    (∀ entries : List (Expression × Expression),
      (entries.length ≤ 10 →
        make_map_literal entries = .functionCall "of" (interleavePairs entries)
          (make_member_access_from_dotted_name "java.util.Map") []) ∧
      (10 < entries.length →
        make_map_literal entries = .functionCall "ofEntries"
          (entries.map (fun e => Expression.functionCall "entry" [e.1, e.2]
            (make_member_access_from_dotted_name "java.util.Map") []))
          (make_member_access_from_dotted_name "java.util.Map") [])) := by
  have hne : (fs "collections_literals" = false) = False := by
    simp [hon]
  have hdispatch : ∀ fuel k st1, would_accept ":" st1 = false →
      parse_map_literal fs fuel (Tok.punct "\x7b" :: Tok.atom k :: st1) =
        parse_set_literal_rest fuel (.atomE k) st1 := by
    intro fuel k st1 hcolon
    rw [parse_map_literal, if_neg (by simp [hon])]
    cases st1 with
    | nil => rfl
    | cons t rest =>
      simp only [would_accept] at hcolon
      cases t <;>
        simp_all [Bind.bind, Except.bind, require, accept, tokStr, parse_expr,
          beq_self_eq_true, if_true, Bool.false_eq_true, if_false,
          none_beq_some, some_beq_some, would_accept]
  refine ⟨hdispatch, ?_, ?_, ?_⟩
  · intro fuel k ns rest hfuel
    rw [hdispatch fuel k _ (by cases ns <;> simp [commaSepAtoms, would_accept, tokStr])]
    rw [parse_set_literal_rest]
    simp only [Bind.bind, Except.bind,
      parse_set_literal_loop_atoms ns fuel [.atomE k] rest hfuel]
    simp [require, accept, tokStr, make_set_literal]
  · intro fuel a b ps rest hfuel
    rw [parse_map_literal]
    simp only [hne, if_false, require, accept, tokStr, beq_self_eq_true, if_true,
      Bind.bind, Except.bind]
    rw [show would_accept "\x7d" (Tok.atom a :: Tok.punct ":" :: Tok.atom b ::
        (commaEntries ps ++ (Tok.punct "\x7d" :: rest))) = false by
      simp [would_accept, tokStr]]
    simp only [Bool.false_eq_true, if_false, parse_expr, accept, tokStr,
      beq_self_eq_true, if_true]
    rw [parse_map_literal_loop_pairs ps fuel [(.atomE a, .atomE b)] rest hfuel]
    simp [require, accept, tokStr]
  · intro entries
    constructor
    · intro hle
      rw [make_map_literal, if_pos hle]
    · intro hgt
      rw [make_map_literal, if_neg (by omega)]

/-- Witness for C5: `{1, 2, 3}` lowers to `Set.of(1, 2, 3)`; an
eleven-entry map literal lowers through `Map.ofEntries`, not `Map.of`. -/
theorem brace_literal_disambiguation_witness :
    parse_map_literal JavaPlusPlusParser_init 2
        [Tok.punct "\x7b", Tok.atom 1, Tok.punct ",", Tok.atom 2, Tok.punct ",",
         Tok.atom 3, Tok.punct "\x7d"] =
      .ok (.functionCall "of" [.atomE 1, .atomE 2, .atomE 3]
        (make_member_access_from_dotted_name "java.util.Set") [], []) ∧
    make_map_literal (List.replicate 11 (Expression.atomE 0, Expression.atomE 0)) =
      .functionCall "ofEntries"
        (List.replicate 11 (Expression.functionCall "entry"
          [Expression.atomE 0, Expression.atomE 0]
          (make_member_access_from_dotted_name "java.util.Map") []))
        (make_member_access_from_dotted_name "java.util.Map") [] := by
  constructor
  · have h := (brace_literal_disambiguation JavaPlusPlusParser_init
      (by decide)).2.1 2 1 [2, 3] [] (by decide)
    simpa [commaSepAtoms] using h
  · have h := ((brace_literal_disambiguation JavaPlusPlusParser_init
      (by decide)).2.2.2
      (List.replicate 11 (Expression.atomE 0, Expression.atomE 0))).2 (by simp)
    rw [h]
    simp

/-! ## C6 and C9: optional literals -/

/-- C6 (failing-input evaluation): with the optional-literal feature on,
`(int) x ?` does NOT lower to `OptionalInt.of(x)`.  Lines 549–558 read
`value.name` — an attribute a `CastExpression` does not define (the test
was evidently meant to read `value.type.name`, compare
`primitive_to_wrapper` and the commented-out lines 597–607) — so the
specialized branch is unreachable and the lowering falls through to
`Optional.ofNullable((int) x)`, while plain `x ?` and postfix `x !` behave
as the claim states. -/
theorem optional_literal_int_cast_bug :
    Expression.name_attr (.castExpression (.primitiveType "int") (.atomE 0)) = none ∧
    parse_optional_literal_rest
        (.castExpression (.primitiveType "int") (.atomE 0)) [Tok.punct ";"] =
      .ok (.functionCall "ofNullable"
          [.castExpression (.primitiveType "int") (.atomE 0)]
          (make_member_access_from_dotted_name "java.util.Optional") [],
        [Tok.punct ";"]) ∧
    (∀ st' : PSt, parse_optional_literal_rest
        (.castExpression (.primitiveType "int") (.atomE 0)) [Tok.punct ";"] ≠
      .ok (.functionCall "of" [.castExpression (.primitiveType "int") (.atomE 0)]
          (make_member_access_from_dotted_name "java.util.OptionalInt") [], st')) ∧
    parse_optional_literal_rest (.atomE 7) [Tok.punct ";"] =
      .ok (.functionCall "ofNullable" [.atomE 7]
          (make_member_access_from_dotted_name "java.util.Optional") [],
        [Tok.punct ";"]) ∧
    parse_postfix_expr JavaPlusPlusParser_init 2 [Tok.atom 7, Tok.punct "!"] =
      .ok (.functionCall "orElseThrow" [] (some (.atomE 7)) [], []) := by
  refine ⟨rfl, rfl, ?_, rfl, rfl⟩
  intro st'
  simp [parse_optional_literal_rest, Expression.name_attr, accept, tokStr,
    make_member_access_from_dotted_name]

/-- The shape of every optional-literal lowering: a factory call on one of
the `java.util.Optional*` classes. -/
def is_optional_construction : Expression → Prop
  | .functionCall n _ obj _ =>
    (n = "of" ∨ n = "ofNullable") ∧
    (obj = make_member_access_from_dotted_name "java.util.Optional" ∨
     obj = make_member_access_from_dotted_name "java.util.OptionalInt" ∨
     obj = make_member_access_from_dotted_name "java.util.OptionalDouble" ∨
     obj = make_member_access_from_dotted_name "java.util.OptionalLong")
  | _ => False

theorem parse_optional_literal_rest_shape (value : Expression) (st : PSt)
    (e : Expression) (st' : PSt)
    (h : parse_optional_literal_rest value st = .ok (e, st')) :
    is_optional_construction e := by
  unfold parse_optional_literal_rest at h
  repeat' split at h
  all_goals (try simp_all [is_optional_construction, Bind.bind, Except.bind])
  all_goals (repeat' split at h)
  all_goals (try simp_all [is_optional_construction])
  all_goals (obtain ⟨he, _⟩ := h; subst he; simp)

/-- C9: after the condition is parsed and a `?` consumed, with the
optional-literal feature enabled: when the next token is one of
`< ) ] } , ;` or the end of input, parsing continues as an optional-literal
construction (whose successful result is always a factory call on an
`Optional*` class); otherwise parsing continues as a ternary conditional
(true-branch, `:`, false-branch). -/
theorem conditional_vs_optional (fs : FeatureSet) (c : Nat) (t : Tok)
    (rest : PSt) (fuel : Nat) (hon : fs "optional_literals" = true) :
    (would_accept_terminator (t :: rest) = true →
      parse_conditional fs (fuel + 1) (Tok.atom c :: Tok.punct "?" :: t :: rest) =
        parse_optional_literal_rest (.atomE c) (t :: rest)) ∧
    (∀ a b rest', t = Tok.atom a → rest = Tok.punct ":" :: Tok.atom b :: rest' →
      would_accept "?" rest' = false →
      parse_conditional fs (fuel + 1) (Tok.atom c :: Tok.punct "?" :: t :: rest) =
        .ok (.conditionalExpression (.atomE c) (.atomE a) (.atomE b), rest')) ∧
    (∀ value st1 e st', parse_optional_literal_rest value st1 = .ok (e, st') →
      is_optional_construction e) := by
  refine ⟨?_, ?_, parse_optional_literal_rest_shape⟩
  · intro hterm
    rw [parse_conditional]
    simp only [would_accept_name_arrow, would_accept, tokStr, none_beq_some,
      Bool.or_self, Bool.false_eq_true, if_false, parse_logic_or_expr, parse_expr,
      Bind.bind, Except.bind, accept, beq_self_eq_true, if_true, hon, hterm,
      Bool.and_self]
  · rintro a b rest' rfl rfl hq
    rw [parse_conditional]
    simp only [would_accept_name_arrow, would_accept, tokStr, none_beq_some,
      Bool.or_self, Bool.false_eq_true, if_false, parse_logic_or_expr, parse_expr,
      Bind.bind, Except.bind, accept, beq_self_eq_true, if_true, hon]
    rw [show would_accept_terminator
        (Tok.atom a :: Tok.punct ":" :: Tok.atom b :: rest') = false from rfl]
    simp only [Bool.and_false, Bool.false_eq_true, if_false, parse_assignment,
      parse_expr, require, accept, tokStr, beq_self_eq_true, if_true]
    rw [parse_conditional]
    simp only [would_accept_name_arrow, would_accept, tokStr, none_beq_some,
      Bool.or_self, Bool.false_eq_true, if_false, parse_logic_or_expr, parse_expr,
      Bind.bind, Except.bind, accept_eq_none _ _ hq]

/-- Witness for C9: `x ? ;` takes the optional-literal branch;
`x ? y : z` parses as a ternary. -/
theorem conditional_vs_optional_witness :
    parse_conditional JavaPlusPlusParser_init 1
        [Tok.atom 0, Tok.punct "?", Tok.punct ";"] =
      parse_optional_literal_rest (.atomE 0) [Tok.punct ";"] ∧
    parse_conditional JavaPlusPlusParser_init 1
        [Tok.atom 0, Tok.punct "?", Tok.atom 1, Tok.punct ":", Tok.atom 2] =
      .ok (.conditionalExpression (.atomE 0) (.atomE 1) (.atomE 2), []) := by
  constructor
  · exact (conditional_vs_optional JavaPlusPlusParser_init 0 (Tok.punct ";") [] 0
      (by decide)).1 (by decide)
  · exact (conditional_vs_optional JavaPlusPlusParser_init 0 (Tok.atom 1)
      [Tok.punct ":", Tok.atom 2] 0 (by decide)).2.1 1 2 [] rfl rfl (by decide)

/-! ## C10: argumentless print statements -/

/-- C10: with the print-statement feature on, argumentless `println;`
desugars to a statement calling `System.out.println()` with no arguments,
whereas argumentless `print;` desugars to an empty statement that performs
no output call at all. -/
theorem argumentless_print_statements (fs : FeatureSet) (rest : PSt)
    (fuel : Nat) (hon : fs "print_statements" = true) :
    parse_statement fs fuel (Tok.name "println" :: Tok.punct ";" :: rest) =
      .ok (make_print_statement "println" none, rest) ∧
    make_print_statement "println" none =
      .expressionStatement (.functionCall "println" []
        (some (.memberAccess "out" (some (.memberAccess "System"
          (some (.memberAccess "lang" (some (.memberAccess "java" none)))))))) []) ∧
    parse_statement fs fuel (Tok.name "print" :: Tok.punct ";" :: rest) =
      .ok (.emptyStatement, rest) := by
  refine ⟨?_, rfl, ?_⟩ <;> (rw [parse_statement, if_pos hon]; rfl)

/-- Witness for C10. -/
theorem argumentless_print_statements_witness :
    parse_statement JavaPlusPlusParser_init 0
        [Tok.name "println", Tok.punct ";"] =
      .ok (make_print_statement "println" none, []) ∧
    parse_statement JavaPlusPlusParser_init 0
        [Tok.name "print", Tok.punct ";"] =
      .ok (.emptyStatement, []) :=
  ⟨(argumentless_print_statements JavaPlusPlusParser_init [] 0 (by decide)).1,
   (argumentless_print_statements JavaPlusPlusParser_init [] 0 (by decide)).2.2⟩

/-! ## C7: feature-directive error conversion -/

/-- C7 counterexample: the in-source directive `import java++.bogus;`
propagates the bare `ValueError` from `enable_feature` — line 222 has no
try/except — instead of the position-tagged `JavaSyntaxError` the claim
requires for every directive form. -/
theorem feature_directive_error_counterexample :
    parse_import_declarations JavaPlusPlusParser_init 1
        [Tok.name "import", Tok.name "java", Tok.punct "++", Tok.punct ".",
         Tok.name "bogus", Tok.punct ";"] =
      .error (.valueError "unsupported feature bogus") := by
  simp only [parse_import_declarations, parse_import_declarations_loop]
  rfl

set_option maxRecDepth 4000 in
/-- C7 (amended): only the `from java++ import|unimport` directive form
converts the unknown-feature `ValueError` into a `JavaSyntaxError` tagged
with the position of the offending token (lines 282–285); the pseudo-import
forms `import java++.x` and `unimport java++.x` call `enable_feature` with
no try/except and propagate the bare `ValueError`. -/
theorem feature_directive_error_amended (u : String) (rest : PSt) (fuel : Nat)
    (fs : FeatureSet)
    (hu1 : u ≠ "*") (hu2 : supported_features.contains u = false)
    (hu3 : strEndsWith u ".*" = false) :
    parse_import_declarations fs fuel
        (Tok.name "import" :: Tok.name "java" :: Tok.punct "++" :: Tok.punct "." ::
          Tok.name u :: Tok.punct ";" :: rest) =
      .error (.valueError ("unsupported feature " ++ u)) ∧
    parse_unimport fs fuel
        (Tok.name "unimport" :: Tok.name "java" :: Tok.punct "++" :: Tok.punct "." ::
          Tok.name u :: Tok.punct ";" :: rest) =
      .error (.valueError ("unsupported feature " ++ u)) ∧
    parse_from_import_declarations fs fuel
        (Tok.name "from" :: Tok.name "java" :: Tok.punct "++" :: Tok.name "import" ::
          Tok.name u :: Tok.punct ";" :: rest) =
      .error (.javaSyntaxError ("unsupported feature " ++ u) (rest.length + 2)) := by
  have hustar : (u == "*") = false := by
    simp [hu1]
  have hef : ∀ b : Bool, enable_feature fs u b =
      .error (.valueError ("unsupported feature " ++ u)) := by
    intro b
    rw [enable_feature, if_neg hu1]
    simp only [hu2, hu3, Bool.false_eq_true, if_false]
  have hpath : parse_feature_path_dotstar fuel u (Tok.punct ";" :: rest) =
      .ok (u, Tok.punct ";" :: rest) := by
    rw [parse_feature_path_dotstar]
    rfl
  have hpath2 : parse_feature_path_star fuel u (Tok.punct ";" :: rest) =
      .ok (u, Tok.punct ";" :: rest) := by
    rw [parse_feature_path_star]
    rfl
  have haccstar : accept "*" (Tok.name u :: Tok.punct ";" :: rest) = none := by
    simp [accept, tokStr, some_beq_some, hustar]
  refine ⟨?_, ?_, ?_⟩
  · have hloop : parse_import_declarations_loop fs fuel [] false
        (Tok.name "java" :: Tok.punct "++" :: Tok.punct "." :: Tok.name u ::
          Tok.punct ";" :: rest) =
        .error (.valueError ("unsupported feature " ++ u)) := by
      rw [parse_import_declarations_loop]
      simp only [Bool.false_eq_true, if_false,
        show accept2 "java" "++" (Tok.name "java" :: Tok.punct "++" ::
            Tok.punct "." :: Tok.name u :: Tok.punct ";" :: rest) =
          some (Tok.punct "." :: Tok.name u :: Tok.punct ";" :: rest) from rfl,
        show accept2 "." "*" (Tok.punct "." :: Tok.name u :: Tok.punct ";" ::
            rest) = none from by simp [accept2, tokStr, some_beq_some, hustar],
        show require "." (Tok.punct "." :: Tok.name u :: Tok.punct ";" :: rest) =
          Except.ok (Tok.name u :: Tok.punct ";" :: rest) from rfl,
        parse_ident, Bind.bind, Except.bind, hpath, hef]
    show Bind.bind (parse_import_declarations_loop fs fuel [] false
        (Tok.name "java" :: Tok.punct "++" :: Tok.punct "." :: Tok.name u ::
          Tok.punct ";" :: rest)) _ = _
    rw [hloop]
    rfl
  · have hloop : parse_unimport_loop fs fuel
        (Tok.punct "." :: Tok.name u :: Tok.punct ";" :: rest) =
        .error (.valueError ("unsupported feature " ++ u)) := by
      rw [parse_unimport_loop]
      simp only [Bool.false_eq_true, if_false,
        show accept2 "." "*" (Tok.punct "." :: Tok.name u :: Tok.punct ";" ::
            rest) = none from by simp [accept2, tokStr, some_beq_some, hustar],
        show require "." (Tok.punct "." :: Tok.name u :: Tok.punct ";" :: rest) =
          Except.ok (Tok.name u :: Tok.punct ";" :: rest) from rfl,
        parse_ident, Bind.bind, Except.bind, hpath, hef]
    show parse_unimport_loop fs fuel
        (Tok.punct "." :: Tok.name u :: Tok.punct ";" :: rest) = _
    exact hloop
  · have hfloop : parse_from_feature_loop fs true fuel
        (Tok.name u :: Tok.punct ";" :: rest) =
        .error (.javaSyntaxError ("unsupported feature " ++ u)
          (rest.length + 2)) := by
      rw [parse_from_feature_loop]
      simp only [Bind.bind, Except.bind, parse_ident, hpath2, hef,
        List.length_cons]
    show (match accept "*" (Tok.name u :: Tok.punct ";" :: rest) with
      | some st4 => _
      | none => _) = _
    rw [haccstar]
    show Bind.bind (parse_from_feature_loop fs true fuel
        (Tok.name u :: Tok.punct ";" :: rest)) _ = _
    rw [hfloop]
    rfl

/-- Witness for the amended C7 theorem, at the unknown name `bogus`. -/
theorem feature_directive_error_amended_witness :
    parse_unimport JavaPlusPlusParser_init 1
        [Tok.name "unimport", Tok.name "java", Tok.punct "++", Tok.punct ".",
         Tok.name "bogus", Tok.punct ";"] =
      .error (.valueError "unsupported feature bogus") ∧
    parse_from_import_declarations JavaPlusPlusParser_init 1
        [Tok.name "from", Tok.name "java", Tok.punct "++", Tok.name "import",
         Tok.name "bogus", Tok.punct ";"] =
      .error (.javaSyntaxError "unsupported feature bogus" 2) := by
  have h := feature_directive_error_amended "bogus" [] 1 JavaPlusPlusParser_init
    (by decide) (by decide) (by decide)
  exact ⟨h.2.1, h.2.2⟩
